import Mathlib

/-!
Verification of the yolobox configuration-resolution and invocation-builder
core (cmd/yolobox/main.go).  Go strings are modelled as lists of characters
(`Str`), Go's fallible functions as `Except Str`.  Filesystem, environment
and subprocess effects consulted by `buildRunArgs` are modelled by an
explicit `Env` record of pure oracles, so the builder itself is a pure
function of its inputs, exactly mirroring the statement order of the source.
-/

namespace Yolobox

/-- Go strings, modelled as their character lists. -/
abbrev Str : Type := List Char

/-- Character list of a Lean string literal (only used to write literals). -/
def str (s : String) : Str := s.data

/-- Go `strings.Split(s, sep)` for a one-character separator. -/
def splitOnChar (sep : Char) : Str → List Str
  | [] => [[]]
  | ch :: rest =>
    let r := splitOnChar sep rest
    if ch = sep then [] :: r
    else
      match r with
      | [] => [[ch]]
      | h :: t => (ch :: h) :: t

/-- Go `strings.SplitN(s, sep, 3)` for a one-character separator:
the full split, with everything from the third part on re-joined. -/
def splitN3 (sep : Char) (s : Str) : List Str :=
  let ps := splitOnChar sep s
  if ps.length ≤ 3 then ps
  else ps.take 2 ++ [List.intercalate [sep] (ps.drop 2)]

/-- Go `filepath.IsAbs` on Unix: the path begins with a slash. -/
def isAbs : Str → Bool
  | [] => false
  | c :: _ => c = '/'

/-- Does the string begin with the given character?  (Go `strings.HasPrefix`
with a one-character prefix.) -/
def headIs : Str → Char → Bool
  | [], _ => false
  | c :: _, ch => c = ch

/-- Stack form of the element processing of Go `filepath.Clean` (Unix):
drop empty and `.` elements; `..` pops a preceding non-`..` element, is
dropped at the root of a rooted path, and is kept otherwise.  The
accumulator holds the processed elements in reverse. -/
def cleanRev (rooted : Bool) : List Str → List Str → List Str
  | [], acc => acc
  | c :: rest, acc =>
    if c = [] ∨ c = ['.'] then cleanRev rooted rest acc
    else if c = ['.', '.'] then
      match acc with
      | [] => if rooted then cleanRev rooted rest [] else cleanRev rooted rest [['.', '.']]
      | top :: acctl =>
        if top = ['.', '.'] then cleanRev rooted rest (c :: top :: acctl)
        else cleanRev rooted rest acctl
    else cleanRev rooted rest (c :: acc)

/-- Go `filepath.Clean` (Unix): lexical normalisation.  Empty input yields
`.`; a rooted path keeps its leading slash ("/" when nothing remains); a
relative path that cleans to nothing yields `.`. -/
def clean (p : Str) : Str :=
  if p = [] then ['.']
  else
    let rooted := isAbs p
    let comps := (cleanRev rooted (splitOnChar '/' p) []).reverse
    let out := List.intercalate ['/'] comps
    if rooted then '/' :: out
    else if out = [] then ['.'] else out

/-- Go `filepath.Join` (Unix): skip leading empty elements, join the rest
with slashes (later empty elements included) and `Clean` the result;
all-empty input yields the empty string. -/
def goJoin (elems : List Str) : Str :=
  let rest := elems.dropWhile (fun e => e = [])
  if rest = [] then [] else clean (List.intercalate ['/'] rest)

/-- Go `filepath.Abs`: an absolute path is cleaned; a relative one is
joined onto the working directory (which `os.Getwd` may fail to supply). -/
def goAbs (getwd : Except Str Str) (p : Str) : Except Str Str :=
  if isAbs p then Except.ok (clean p)
  else
    match getwd with
    | Except.error e => Except.error e
    | Except.ok wd => Except.ok (goJoin [wd, p])

/-- The `Config` struct of main.go (first snapshot, lines 69-87). -/
structure Config where
  Runtime : Str := []
  Image : Str := []
  Mounts : List Str := []
  Env : List Str := []
  SSHAgent : Bool := false
  ReadonlyProject : Bool := false
  NoNetwork : Bool := false
  Network : Str := []
  NoYolo : Bool := false
  Scratch : Bool := false
  ClaudeConfig : Bool := false
  GitConfig : Bool := false
  GhToken : Bool := false
  CopyAgentInstructions : Bool := false
  Setup : Bool := false
deriving Repr, DecidableEq

/-- Model of `defaultConfig` (main.go lines 459-463). -/
def defaultConfig : Config :=
  { Image := str (r"ghcr.io/finbarr/yolobox:latest") }

/-- Model of `mergeConfig` (main.go lines 512-555): non-empty scalars overwrite,
non-empty sequences replace wholesale, true booleans stick. -/
def mergeConfig (dst src : Config) : Config :=
  { Runtime := if src.Runtime ≠ [] then src.Runtime else dst.Runtime
    Image := if src.Image ≠ [] then src.Image else dst.Image
    Mounts := if src.Mounts ≠ [] then src.Mounts else dst.Mounts
    Env := if src.Env ≠ [] then src.Env else dst.Env
    SSHAgent := dst.SSHAgent || src.SSHAgent
    ReadonlyProject := dst.ReadonlyProject || src.ReadonlyProject
    NoNetwork := dst.NoNetwork || src.NoNetwork
    Network := if src.Network ≠ [] then src.Network else dst.Network
    NoYolo := dst.NoYolo || src.NoYolo
    Scratch := dst.Scratch || src.Scratch
    ClaudeConfig := dst.ClaudeConfig || src.ClaudeConfig
    GitConfig := dst.GitConfig || src.GitConfig
    GhToken := dst.GhToken || src.GhToken
    CopyAgentInstructions := dst.CopyAgentInstructions || src.CopyAgentInstructions
    Setup := dst.Setup }

/-- The observable state of one config file for `mergeConfigFile`
(main.go lines 495-510): absent, stat-failed, unparseable, or parsed. -/
inductive ConfigFile
  | missing
  | statError (e : Str)
  | parseError (e : Str)
  | parsed (c : Config)
deriving Repr

/-- Model of `mergeConfigFile` (main.go lines 495-510): a missing file is a no-op,
a stat or parse failure aborts, a parsed file is merged in. -/
def mergeConfigFileP (f : ConfigFile) (cfg : Config) : Except Str Config :=
  match f with
  | ConfigFile.missing => Except.ok cfg
  | ConfigFile.statError e => Except.error e
  | ConfigFile.parseError e => Except.error e
  | ConfigFile.parsed c => Except.ok (mergeConfig cfg c)

/-- Model of `loadConfig` (main.go lines 465-482): defaults, then the global file,
then the project file, both through `mergeConfigFileP`; `globalPath` is the
result of `globalConfigPath` (which can fail when the home directory is
unknown). -/
def loadConfig (globalPath : Except Str Str) (globalFile projectFile : ConfigFile) :
    Except Str Config :=
  match globalPath with
  | Except.error e => Except.error e
  | Except.ok _ =>
    match mergeConfigFileP globalFile defaultConfig with
    | Except.error e => Except.error e
    | Except.ok c1 => mergeConfigFileP projectFile c1

/-- The CLI flag values of `parseBaseFlags` after `fs.Parse`
(main.go lines 363-395). -/
structure Flags where
  runtimeFlag : Str := []
  imageFlag : Str := []
  networkFlag : Str := []
  sshAgent : Bool := false
  readonlyProject : Bool := false
  noNetwork : Bool := false
  noYolo : Bool := false
  scratch : Bool := false
  claudeConfig : Bool := false
  gitConfig : Bool := false
  ghToken : Bool := false
  copyAgentInstructions : Bool := false
  setup : Bool := false
  mounts : List Str := []
  envVars : List Str := []
deriving Repr, DecidableEq

/-- The flag-application part of `parseBaseFlags` (main.go lines 405-449):
non-empty string flags overwrite, set boolean flags stick, repeatable
`--mount`/`--env` values are appended. -/
def applyCore (cfg : Config) (f : Flags) : Config :=
  { cfg with
    Runtime := if f.runtimeFlag ≠ [] then f.runtimeFlag else cfg.Runtime
    Image := if f.imageFlag ≠ [] then f.imageFlag else cfg.Image
    SSHAgent := cfg.SSHAgent || f.sshAgent
    ReadonlyProject := cfg.ReadonlyProject || f.readonlyProject
    NoNetwork := cfg.NoNetwork || f.noNetwork
    Network := if f.networkFlag ≠ [] then f.networkFlag else cfg.Network
    NoYolo := cfg.NoYolo || f.noYolo
    Scratch := cfg.Scratch || f.scratch
    ClaudeConfig := cfg.ClaudeConfig || f.claudeConfig
    GitConfig := cfg.GitConfig || f.gitConfig
    GhToken := cfg.GhToken || f.ghToken
    CopyAgentInstructions := cfg.CopyAgentInstructions || f.copyAgentInstructions
    Setup := cfg.Setup || f.setup
    Mounts := if f.mounts ≠ [] then cfg.Mounts ++ f.mounts else cfg.Mounts
    Env := if f.envVars ≠ [] then cfg.Env ++ f.envVars else cfg.Env }

/-- Flag application followed by the conflicting-options validation of
`parseBaseFlags` (main.go lines 451-454). -/
def applyFlags (cfg : Config) (f : Flags) : Except Str Config :=
  let c := applyCore cfg f
  if c.Network ≠ [] ∧ c.NoNetwork then
    Except.error (str (r"cannot use --network with --no-network"))
  else Except.ok c

/-- Model of `parseBaseFlags` (main.go lines 353-457), with flag-set parsing itself
out of scope: load the layered config, then apply and validate the flags. -/
def parseBaseFlags (globalPath : Except Str Str) (globalFile projectFile : ConfigFile)
    (f : Flags) : Except Str Config :=
  match loadConfig globalPath globalFile projectFile with
  | Except.error e => Except.error e
  | Except.ok cfg => applyFlags cfg f

/-- Model of `resolvePath` (main.go lines 1279-1301).  `hm` is the result of
`os.UserHomeDir`, consulted only for a `~`-prefixed path. -/
def resolvePath (hm : Except Str Str) (path projectDir : Str) : Except Str Str :=
  if path = [] then Except.error (str (r"empty path"))
  else
    match
      (if headIs path '~' then
        match hm with
        | Except.error e => Except.error e
        | Except.ok home =>
          if path = ['~'] then Except.ok home
          else if path.take 2 = ['~', '/'] then Except.ok (goJoin [home, path.drop 2])
          else Except.ok path
      else Except.ok path : Except Str Str) with
    | Except.error e => Except.error e
    | Except.ok p =>
      if headIs p '.' ∨ headIs p '/' then
        Except.ok (clean (if isAbs p then p else goJoin [projectDir, p]))
      else Except.ok p

/-- Model of `resolveMount` (main.go lines 1257-1277): split `src:dst[:opts]` on the
first two colons, resolve the source, re-assemble. -/
def resolveMount (hm : Except Str Str) (mount projectDir : Str) : Except Str Str :=
  let parts := splitN3 ':' mount
  if parts.length < 2 then Except.error (str (r"invalid mount; expected src:dst"))
  else
    let src := parts.headD []
    let dst := (parts.drop 1).headD []
    let opts := if parts.length = 3 then (parts.drop 2).headD [] else []
    match resolvePath hm src projectDir with
    | Except.error e => Except.error e
    | Except.ok resolved =>
      if opts ≠ [] then Except.ok (resolved ++ [':'] ++ dst ++ [':'] ++ opts)
      else Except.ok (resolved ++ [':'] ++ dst)

/-- Result of one `os.Stat` call as `buildRunArgs` observes it: success
(with the directory bit), not-found, or any other error. -/
inductive GoStat
  | ok (isDir : Bool)
  | notFound
  | err (e : Str)
deriving Repr, DecidableEq

/-- The host-side effects consulted by `buildRunArgs`, as pure oracles:
terminal state of the standard streams, environment variables,
`os.UserHomeDir`, `os.Stat`, the `gh auth token` and Keychain credential
subprocesses, the `os.WriteFile` of the extracted credentials,
`prepareFileMountDir`, `os.Getwd` (for `filepath.Abs`), and
`exec.LookPath` (for `resolveRuntime`). -/
structure Env where
  stdinTTY : Bool := false
  stdoutTTY : Bool := false
  getenv : Str → Str := fun _ => []
  userHome : Except Str Str := Except.ok (str (r"/home/u"))
  stat : Str → GoStat := fun _ => GoStat.notFound
  ghToken : Str := []
  claudeCreds : Str := []
  writeCredsOk : Bool := true
  prepareRes : Except Str Str := Except.ok (str (r"/tmp/yolobox-mounts"))
  getwd : Except Str Str := Except.ok (str (r"/"))
  lookPath : Str → Option Str := fun _ => none

/-- Model of `resolveRuntime` (main.go lines 1313-1334): empty name probes docker,
podman, container in order; `colima` is an alias for docker; otherwise the
name must be on the search path. -/
def resolveRuntime (env : Env) (name : Str) : Except Str Str :=
  if name = [] then
    match env.lookPath (str (r"docker")) with
    | some p => Except.ok p
    | none =>
      match env.lookPath (str (r"podman")) with
      | some p => Except.ok p
      | none =>
        match env.lookPath (str (r"container")) with
        | some p => Except.ok p
        | none => Except.error (str (r"no container runtime found"))
  else
    let n := if name = str (r"colima") then str (r"docker") else name
    match env.lookPath n with
    | some p => Except.ok p
    | none => Except.error (str (r"runtime not found in PATH"))

/-- Model of `isAppleContainer` (main.go lines 1006-1012): the resolved runtime
binary's path ends in `/container`. -/
def isAppleContainer (env : Env) (name : Str) : Bool :=
  match resolveRuntime env name with
  | Except.error _ => false
  | Except.ok p => (str (r"/container")).isSuffixOf p

/-- The fixed auto-passthrough environment allow-list
(main.go lines 50-58). -/
def autoPassthroughEnvVars : List Str :=
  [str (r"ANTHROPIC_API_KEY"), str (r"OPENAI_API_KEY"), str (r"COPILOT_GITHUB_TOKEN"),
   str (r"GITHUB_TOKEN"), str (r"GH_TOKEN"), str (r"OPENROUTER_API_KEY"),
   str (r"GEMINI_API_KEY")]

/-- buildRunArgs lines 1049-1057: `run --rm`, plus `-it` when interactive
was requested or both standard streams are terminals. -/
def baseSegment (env : Env) (interactive : Bool) : List Str :=
  if interactive || (env.stdinTTY && env.stdoutTTY) then
    [str (r"run"), str (r"--rm"), str (r"-it")]
  else [str (r"run"), str (r"--rm")]

/-- buildRunArgs lines 1059-1070: working directory, marker variables,
NO_YOLO, and the TERM and LANG passthroughs. -/
def headerSegment (env : Env) (cfg : Config) (absProject : Str) : List Str :=
  [str (r"-w"), absProject, str (r"-e"), str (r"YOLOBOX=1"),
   str (r"-e"), str (r"YOLOBOX_PROJECT_PATH=") ++ absProject]
  ++ (if cfg.NoYolo then [str (r"-e"), str (r"NO_YOLO=1")] else [])
  ++ (if env.getenv (str (r"TERM")) ≠ [] then
        [str (r"-e"), str (r"TERM=") ++ env.getenv (str (r"TERM"))] else [])
  ++ (if env.getenv (str (r"LANG")) ≠ [] then
        [str (r"-e"), str (r"LANG=") ++ env.getenv (str (r"LANG"))] else [])

/-- buildRunArgs lines 1072-1077: one `-e KEY=value` per non-empty
allow-listed variable, in allow-list order. -/
def envForwardSegment (env : Env) : List Str :=
  autoPassthroughEnvVars.flatMap (fun key =>
    if env.getenv key ≠ [] then [str (r"-e"), key ++ ['='] ++ env.getenv key] else [])

/-- buildRunArgs lines 1079-1084: forward the GitHub CLI token when
requested and available. -/
def ghTokenSegment (env : Env) (cfg : Config) : List Str :=
  if cfg.GhToken && env.ghToken ≠ [] then
    [str (r"-e"), str (r"GH_TOKEN=") ++ env.ghToken]
  else []

/-- buildRunArgs lines 1086-1089: the user-specified env entries in order. -/
def userEnvSegment (cfg : Config) : List Str :=
  cfg.Env.flatMap (fun e => [str (r"-e"), e])

/-- buildRunArgs lines 1094-1102: the writable output location emitted in
read-only mode (anonymous under scratch, named otherwise). -/
def outputVolSegment (cfg : Config) : List Str :=
  if cfg.ReadonlyProject then
    if cfg.Scratch then [str (r"-v"), str (r"/output")]
    else [str (r"-v"), str (r"yolobox-output:/output")]
  else []

/-- buildRunArgs lines 1091-1103: the project mount at its absolute host
path, `:ro`-suffixed in read-only mode. -/
def projectMountSegment (cfg : Config) (absProject : Str) : List Str :=
  [str (r"-v"),
   if cfg.ReadonlyProject then absProject ++ [':'] ++ absProject ++ str (r":ro")
   else absProject ++ [':'] ++ absProject]

/-- buildRunArgs lines 1105-1109: the two persistent named volumes,
skipped under scratch. -/
def persistVolSegment (cfg : Config) : List Str :=
  if !cfg.Scratch then
    [str (r"-v"), str (r"yolobox-home:/home/yolo"),
     str (r"-v"), str (r"yolobox-cache:/var/cache")]
  else []

/-- One Apple-aware file emission (the common body of the `appleContainer`
forks in buildRunArgs lines 1130-1134, 1143-1147, 1160-1164, 1178-1199):
append the file to the deferred list under the Apple runtime, else emit a
`-v` mount token. -/
def stepAppleChoice (apple : Bool) (tok : Str) (entry : Str × Str)
    (p : List Str × List (Str × Str)) : List Str × List (Str × Str) :=
  if apple then (p.1, p.2 ++ [entry])
  else (p.1 ++ [str (r"-v"), tok], p.2)

/-- One stat-gated, Apple-aware file mount (buildRunArgs `os.Stat` +
`appleContainer` if-blocks): emitted only when the stat succeeds. -/
def stepFileMount (st : GoStat) (apple : Bool) (tok : Str) (entry : Str × Str)
    (p : List Str × List (Str × Str)) : List Str × List (Str × Str) :=
  match st with
  | GoStat.ok _ => stepAppleChoice apple tok entry p
  | _ => p

/-- One stat-gated directory mount (buildRunArgs lines 1124-1127, mounted
directly regardless of runtime). -/
def stepDirMount (st : GoStat) (tok : Str) (p : List Str × List (Str × Str)) :
    List Str × List (Str × Str) :=
  match st with
  | GoStat.ok _ => (p.1 ++ [str (r"-v"), tok], p.2)
  | _ => p

/-- One directory mount gated on the stat succeeding AND reporting a
directory (buildRunArgs lines 1203-1206, the Copilot agents directory). -/
def stepDirMountIfDir (st : GoStat) (tok : Str) (p : List Str × List (Str × Str)) :
    List Str × List (Str × Str) :=
  match st with
  | GoStat.ok true => (p.1 ++ [str (r"-v"), tok], p.2)
  | _ => p

/-- buildRunArgs lines 1119-1150 (Claude config block): fetch the home
directory (aborting on failure), then mount `~/.claude`, `~/.claude.json`
and the extracted Keychain credentials when the corresponding stat or
subprocess succeeds; under the Apple runtime, files go into the deferred
file list instead.  Returns the emitted tokens and the deferred files. -/
def claudeSegment (env : Env) (cfg : Config) (apple : Bool) :
    Except Str (List Str × List (Str × Str)) :=
  if cfg.ClaudeConfig then
    env.userHome.map (fun home =>
      let claudeConfigDir := goJoin [home, str (r".claude")]
      let p := stepDirMount (env.stat claudeConfigDir)
        (claudeConfigDir ++ str (r":/host-claude/.claude:ro")) ([], [])
      let claudeConfigFile := goJoin [home, str (r".claude.json")]
      let p := stepFileMount (env.stat claudeConfigFile) apple
        (claudeConfigFile ++ str (r":/host-claude/.claude.json:ro"))
        (claudeConfigFile, str (r"claude/.claude.json")) p
      let tmpDir := goJoin [home, str (r".yolobox"), str (r"tmp")]
      let credsPath := goJoin [tmpDir, str (r"claude-credentials.json")]
      if env.claudeCreds ≠ [] && env.writeCredsOk then
        stepAppleChoice apple (credsPath ++ str (r":/host-claude/.credentials.json:ro"))
          (credsPath, str (r"claude/.credentials.json")) p
      else p)
  else Except.ok ([], [])

/-- buildRunArgs lines 1153-1166 (git config block). -/
def gitSegment (env : Env) (cfg : Config) (apple : Bool) :
    Except Str (List Str × List (Str × Str)) :=
  if cfg.GitConfig then
    env.userHome.map (fun home =>
      let gitConfigFile := goJoin [home, str (r".gitconfig")]
      stepFileMount (env.stat gitConfigFile) apple
        (gitConfigFile ++ str (r":/host-git/.gitconfig:ro"))
        (gitConfigFile, str (r"git/.gitconfig")) ([], []))
  else Except.ok ([], [])

/-- buildRunArgs lines 1170-1207 (agent instruction files block):
CLAUDE.md, GEMINI.md, AGENTS.md as file mounts (deferred under Apple), and
the Copilot agents directory when it stats as a directory. -/
def agentSegment (env : Env) (cfg : Config) (apple : Bool) :
    Except Str (List Str × List (Str × Str)) :=
  if cfg.CopyAgentInstructions then
    env.userHome.map (fun home =>
      let claudeMd := goJoin [home, str (r".claude"), str (r"CLAUDE.md")]
      let p := stepFileMount (env.stat claudeMd) apple
        (claudeMd ++ str (r":/host-agent-instructions/claude/CLAUDE.md:ro"))
        (claudeMd, str (r"agent-instructions/claude/CLAUDE.md")) ([], [])
      let geminiMd := goJoin [home, str (r".gemini"), str (r"GEMINI.md")]
      let p := stepFileMount (env.stat geminiMd) apple
        (geminiMd ++ str (r":/host-agent-instructions/gemini/GEMINI.md:ro"))
        (geminiMd, str (r"agent-instructions/gemini/GEMINI.md")) p
      let codexMd := goJoin [home, str (r".codex"), str (r"AGENTS.md")]
      let p := stepFileMount (env.stat codexMd) apple
        (codexMd ++ str (r":/host-agent-instructions/codex/AGENTS.md:ro"))
        (codexMd, str (r"agent-instructions/codex/AGENTS.md")) p
      let copilotAgents := goJoin [home, str (r".copilot"), str (r"agents")]
      stepDirMountIfDir (env.stat copilotAgents)
        (copilotAgents ++ str (r":/host-agent-instructions/copilot/agents:ro")) p)
  else Except.ok ([], [])

/-- buildRunArgs lines 1209-1218: under the Apple runtime with deferred
files, create the staging directory (aborting on failure) and mount it. -/
def appleFilesSegment (env : Env) (apple : Bool) (files : List (Str × Str)) :
    Except Str (List Str) :=
  if apple && files.length > 0 then
    env.prepareRes.map (fun tmpDir =>
      [str (r"-v"), tmpDir ++ str (r":/host-files:ro"),
       str (r"-e"), str (r"YOLOBOX_HOST_FILES=/host-files")])
  else Except.ok []

/-- buildRunArgs lines 1220-1227: each extra mount resolved through
`resolveMount`, aborting on the first failure. -/
def mountsSegment (hm : Except Str Str) (absProject : Str) : List Str → Except Str (List Str)
  | [] => Except.ok []
  | m :: rest =>
    match resolveMount hm m absProject with
    | Except.error e => Except.error e
    | Except.ok r =>
      match mountsSegment hm absProject rest with
      | Except.error e => Except.error e
      | Except.ok tl => Except.ok ([str (r"-v"), r] ++ tl)

/-- buildRunArgs lines 1229-1243: ssh-agent forwarding; `--ssh` under the
Apple runtime, otherwise a socket mount plus variable, skipped with a
warning when `SSH_AUTH_SOCK` is unset. -/
def sshSegment (env : Env) (cfg : Config) (apple : Bool) : List Str :=
  if cfg.SSHAgent then
    if apple then [str (r"--ssh")]
    else
      if env.getenv (str (r"SSH_AUTH_SOCK")) = [] then []
      else
        [str (r"-v"), env.getenv (str (r"SSH_AUTH_SOCK")) ++ str (r":/ssh-agent"),
         str (r"-e"), str (r"SSH_AUTH_SOCK=/ssh-agent")]
  else []

/-- buildRunArgs lines 1245-1250: `--network none` under NoNetwork, else
`--network <name>` for a named network, else nothing. -/
def networkSegment (cfg : Config) : List Str :=
  if cfg.NoNetwork then [str (r"--network"), str (r"none")]
  else if cfg.Network ≠ [] then [str (r"--network"), cfg.Network]
  else []

/-- Model of `buildRunArgs` (main.go lines 1040-1255): absolutise the project
directory, then emit the segments in source order, ending with the image
and the literal command. -/
def buildRunArgs (env : Env) (cfg : Config) (projectDir : Str) (command : List Str)
    (interactive : Bool) : Except Str (List Str) :=
  match goAbs env.getwd projectDir with
  | Except.error e => Except.error e
  | Except.ok absProject =>
    let apple := isAppleContainer env cfg.Runtime
    match claudeSegment env cfg apple with
    | Except.error e => Except.error e
    | Except.ok c =>
      match gitSegment env cfg apple with
      | Except.error e => Except.error e
      | Except.ok g =>
        match agentSegment env cfg apple with
        | Except.error e => Except.error e
        | Except.ok a =>
          match appleFilesSegment env apple (c.2 ++ g.2 ++ a.2) with
          | Except.error e => Except.error e
          | Except.ok s12 =>
            match mountsSegment env.userHome absProject cfg.Mounts with
            | Except.error e => Except.error e
            | Except.ok s13 =>
              Except.ok
                (baseSegment env interactive
                  ++ headerSegment env cfg absProject
                  ++ envForwardSegment env
                  ++ ghTokenSegment env cfg
                  ++ userEnvSegment cfg
                  ++ outputVolSegment cfg
                  ++ projectMountSegment cfg absProject
                  ++ persistVolSegment cfg
                  ++ c.1 ++ g.1 ++ a.1
                  ++ s12 ++ s13
                  ++ sshSegment env cfg apple
                  ++ networkSegment cfg
                  ++ [cfg.Image] ++ command)

/-- The result record of the shell resolution, from `TestResolveShell` and
`TestShellResolutionString` (src/unnamed/part_000). -/
structure ShellResolution where
  shell : Str
  detected : Bool
  unsupported : Str
deriving Repr, DecidableEq

/-- Modelled from the spec: the fixed shell allow-list of §4.6 /
ShellResolver ("a fixed allow-list"), whose members per `TestValidateShell`
are exactly bash and fish (zsh and sh are rejected). -/
def validShells : List Str := [str (r"bash"), str (r"fish")]

/-- Go `filepath.Base` (Unix): empty input yields `.`; trailing slashes
are stripped; everything up to the final slash is dropped; an all-slash
input yields `/`. -/
def goBase (p : Str) : Str :=
  if p = [] then ['.']
  else
    let q := (p.reverse.dropWhile (fun c => c = '/')).reverse
    if q = [] then ['/']
    else (q.reverse.takeWhile (fun c => c ≠ '/')).reverse

/-- Modelled from the spec: `resolveShell` (§4.6 ShellResolver), which is
absent from src/ (only `TestResolveShell` in src/unnamed/part_000 remains).
An explicit Config shell is used verbatim and the environment is never
consulted; otherwise an empty `$SHELL` hint yields the fallback `bash`;
otherwise the hint's basename (trailing slashes stripped) is matched
case-sensitively against the allow-list, a match being detected and a
non-match falling back to `bash` with the rejected name recorded. -/
def resolveShell (cfgShell shellEnv : Str) : ShellResolution :=
  if cfgShell ≠ [] then ⟨cfgShell, false, []⟩
  else if shellEnv = [] then ⟨str (r"bash"), false, []⟩
  else
    let name := goBase shellEnv
    if name ∈ validShells then ⟨name, true, []⟩
    else ⟨str (r"bash"), false, name⟩

/-- The argument list of a successful build (empty on failure); lets
theorems speak about the produced arguments without an existential. -/
def okArgs (x : Except Str (List Str)) : List Str :=
  match x with
  | Except.ok l => l
  | Except.error _ => []

/-! ### Helper lemmas about character lists -/

theorem startsWith_ne {a b : Char} {xs ys : Str} (h : a ≠ b) : a :: xs ≠ b :: ys := by
  intro he
  injection he with h1 _
  exact h h1

theorem append_ne_of_not_suffix {s c : Str} (h : ¬ s <:+ c) (x : Str) : x ++ s ≠ c :=
  fun he => h ⟨x, he⟩

theorem ne_of_mem_not_mem {ch : Char} {t c : Str} (h1 : ch ∈ t) (h2 : ch ∉ c) : t ≠ c :=
  fun he => h2 (he ▸ h1)

theorem isAbs_nonempty {p : Str} (h : isAbs p = true) : p ≠ [] := by
  cases p with
  | nil => simp [isAbs] at h
  | cons c t => simp

theorem clean_rooted {p : Str} (h : isAbs p = true) : ∃ t, clean p = '/' :: t := by
  unfold clean
  rw [if_neg (by simpa using isAbs_nonempty h)]
  simp only [h]
  exact ⟨_, rfl⟩

theorem intercalate_pair (s a b : Str) : List.intercalate s [a, b] = a ++ s ++ b := by
  simp [List.intercalate, List.intersperse]

theorem goJoin_pair_rooted {home : Str} (h : isAbs home = true) (rest : Str) :
    ∃ t, goJoin [home, rest] = '/' :: t := by
  unfold goJoin
  rw [List.dropWhile_cons_of_neg (by simpa using isAbs_nonempty h)]
  rw [if_neg (by simp)]
  rw [intercalate_pair]
  apply clean_rooted
  cases home with
  | nil => simp [isAbs] at h
  | cons c t => simpa [isAbs] using h

/-! ### C1 -/

/-- C1: counterexample.  The claim says a project-config mount whose source
is a symlink escaping the project root is excluded from the merged Config.
`loadConfig` (main.go lines 465-482) never consults the filesystem about
mount sources at all — it has no symlink or containment check — so a
project mount entry is retained verbatim whatever its source string
denotes on disk; here the merged mount list is exactly the project's
entry, not absent. -/
theorem c1_counterexample :
    (loadConfig (Except.ok (str (r"/home/u/.config/yolobox/config.toml")))
        ConfigFile.missing
        (ConfigFile.parsed { Mounts := [str (r"escaping-symlink:/dst")] })).map Config.Mounts
      = Except.ok [str (r"escaping-symlink:/dst")] := by rfl

/-- C1 (amended): mount entries of the project config file are retained
verbatim in the merged Config (replacing lower layers wholesale), exactly
as global-config mounts are; no symlink-containment filtering of either
source exists, since `loadConfig` never examines the filesystem beyond the
config files themselves. -/
theorem c1_project_mounts_retained (gpath : Str) (globalFile : ConfigFile) (c1 : Config)
    (hg : mergeConfigFileP globalFile defaultConfig = Except.ok c1)
    (p : Config) (hm : p.Mounts ≠ []) :
    loadConfig (Except.ok gpath) globalFile (ConfigFile.parsed p) =
        Except.ok (mergeConfig c1 p)
      ∧ (mergeConfig c1 p).Mounts = p.Mounts := by
  constructor
  · unfold loadConfig
    rw [hg]
    rfl
  · simp [mergeConfig, hm]

/-- C1: witness for the amended theorem at a concrete global and project
configuration. -/
theorem c1_witness :
    loadConfig (Except.ok (str (r"/g")))
        (ConfigFile.parsed { Mounts := [str (r"g:/g")] })
        (ConfigFile.parsed { Mounts := [str (r"p:/p")] }) =
      Except.ok (mergeConfig (mergeConfig defaultConfig { Mounts := [str (r"g:/g")] })
        { Mounts := [str (r"p:/p")] })
    ∧ (mergeConfig (mergeConfig defaultConfig { Mounts := [str (r"g:/g")] })
        { Mounts := [str (r"p:/p")] }).Mounts = [str (r"p:/p")] :=
  c1_project_mounts_retained (str (r"/g"))
    (ConfigFile.parsed { Mounts := [str (r"g:/g")] })
    (mergeConfig defaultConfig { Mounts := [str (r"g:/g")] }) rfl
    { Mounts := [str (r"p:/p")] } (by decide)

/-! ### C2 -/

/-- C2: counterexample.  The claim says a project config that sets
`runtime`, a credential-forwarding boolean, or an image beginning with `-`
has those values cleared before they reach the merged Config.  `loadConfig`
applies `mergeConfig` to the project file with no redaction whatsoever:
every one of those values lands in the merged Config. -/
theorem c2_counterexample :
    loadConfig (Except.ok (str (r"/g"))) ConfigFile.missing
        (ConfigFile.parsed { Runtime := str (r"podman"), Image := str (r"-rm"),
                             ClaudeConfig := true, GitConfig := true, GhToken := true }) =
      Except.ok { defaultConfig with
        Runtime := str (r"podman"), Image := str (r"-rm"),
        ClaudeConfig := true, GitConfig := true, GhToken := true } := by rfl

/-- C2 (amended): fields read from the project config file take effect in
the merged Config exactly as global-config fields do — `runtime` and
`image` overwrite when non-empty (including an image beginning with `-`),
and the credential-forwarding booleans are or-ed in; no field is cleared
and no warning path exists. -/
theorem c2_project_fields_effective (gpath : Str) (globalFile : ConfigFile) (c1 : Config)
    (hg : mergeConfigFileP globalFile defaultConfig = Except.ok c1) (p : Config) :
    loadConfig (Except.ok gpath) globalFile (ConfigFile.parsed p) =
        Except.ok (mergeConfig c1 p)
      ∧ (mergeConfig c1 p).Runtime = (if p.Runtime ≠ [] then p.Runtime else c1.Runtime)
      ∧ (mergeConfig c1 p).Image = (if p.Image ≠ [] then p.Image else c1.Image)
      ∧ (mergeConfig c1 p).ClaudeConfig = (c1.ClaudeConfig || p.ClaudeConfig)
      ∧ (mergeConfig c1 p).GitConfig = (c1.GitConfig || p.GitConfig)
      ∧ (mergeConfig c1 p).GhToken = (c1.GhToken || p.GhToken) := by
  refine ⟨?_, rfl, rfl, rfl, rfl, rfl⟩
  unfold loadConfig
  rw [hg]
  rfl

/-- C2: witness for the amended theorem at a concrete project
configuration setting the restricted fields. -/
theorem c2_witness :
    loadConfig (Except.ok (str (r"/g"))) ConfigFile.missing
        (ConfigFile.parsed { Runtime := str (r"podman"), GhToken := true }) =
      Except.ok (mergeConfig defaultConfig { Runtime := str (r"podman"), GhToken := true }) :=
  (c2_project_fields_effective (str (r"/g")) ConfigFile.missing defaultConfig rfl
    { Runtime := str (r"podman"), GhToken := true }).1

/-! ### C6 -/

/-- C6: `mergeConfig` is right-biased per non-empty scalar field (a
non-empty incoming image overwrites, an empty one preserves); the sequence
fields mounts and env are replaced wholesale, never appended, whenever the
incoming layer has any entries; and the CLI layer appends its repeatable
`--mount`/`--env` values to whatever the merged config layers left. -/
theorem c6_merge_bias_and_cli_append :
    (∀ d s : Config, s.Image ≠ [] → (mergeConfig d s).Image = s.Image)
    ∧ (∀ d s : Config, s.Image = [] → (mergeConfig d s).Image = d.Image)
    ∧ (∀ d s : Config, s.Mounts ≠ [] → (mergeConfig d s).Mounts = s.Mounts)
    ∧ (∀ d s : Config, s.Env ≠ [] → (mergeConfig d s).Env = s.Env)
    ∧ (∀ (cfg : Config) (f : Flags) (c : Config), applyFlags cfg f = Except.ok c →
        c.Mounts = cfg.Mounts ++ f.mounts ∧ c.Env = cfg.Env ++ f.envVars) := by
  refine ⟨fun d s h => by simp [mergeConfig, h],
          fun d s h => by simp [mergeConfig, h],
          fun d s h => by simp [mergeConfig, h],
          fun d s h => by simp [mergeConfig, h],
          fun cfg f c h => ?_⟩
  unfold applyFlags at h
  by_cases hv : (applyCore cfg f).Network ≠ [] ∧ (applyCore cfg f).NoNetwork = true
  · simp [hv] at h
  · simp only [hv, if_neg, if_false, Except.ok.injEq] at h
    subst h
    constructor
    · by_cases hm : f.mounts = [] <;> simp [applyCore, hm]
    · by_cases he : f.envVars = [] <;> simp [applyCore, he]

/-- C6: witness at a concrete merge (image "new" over "old", wholesale
mount replacement) and a concrete CLI append. -/
theorem c6_witness :
    (mergeConfig { Image := str (r"old") } { Image := str (r"new") }).Image = str (r"new")
    ∧ (mergeConfig { Image := str (r"old") } { Image := [] }).Image = str (r"old")
    ∧ (mergeConfig { Mounts := [str (r"a:/a")] } { Mounts := [str (r"b:/b")] }).Mounts
        = [str (r"b:/b")]
    ∧ (applyCore { Mounts := [str (r"a:/a")] } { mounts := [str (r"c:/c")] }).Mounts
        = [str (r"a:/a")] ++ [str (r"c:/c")] :=
  ⟨c6_merge_bias_and_cli_append.1 _ _ (by decide),
   c6_merge_bias_and_cli_append.2.1 _ _ (by decide),
   c6_merge_bias_and_cli_append.2.2.1 _ _ (by decide),
   (c6_merge_bias_and_cli_append.2.2.2.2 { Mounts := [str (r"a:/a")] }
     { mounts := [str (r"c:/c")] } _ rfl).1⟩

/-! ### C10 -/

/-- C10: every boolean Config field is merged monotonically — each layer
merge yields the disjunction of the two layers' values (so an explicit
false never resets an earlier true), and the CLI layer likewise or-s each
flag in, for all nine flags. -/
theorem c10_bool_monotone :
    (∀ d s : Config,
      (mergeConfig d s).SSHAgent = (d.SSHAgent || s.SSHAgent)
      ∧ (mergeConfig d s).ReadonlyProject = (d.ReadonlyProject || s.ReadonlyProject)
      ∧ (mergeConfig d s).NoNetwork = (d.NoNetwork || s.NoNetwork)
      ∧ (mergeConfig d s).NoYolo = (d.NoYolo || s.NoYolo)
      ∧ (mergeConfig d s).Scratch = (d.Scratch || s.Scratch)
      ∧ (mergeConfig d s).ClaudeConfig = (d.ClaudeConfig || s.ClaudeConfig)
      ∧ (mergeConfig d s).GitConfig = (d.GitConfig || s.GitConfig)
      ∧ (mergeConfig d s).GhToken = (d.GhToken || s.GhToken)
      ∧ (mergeConfig d s).CopyAgentInstructions
          = (d.CopyAgentInstructions || s.CopyAgentInstructions))
    ∧ (∀ (cfg : Config) (f : Flags),
      (applyCore cfg f).SSHAgent = (cfg.SSHAgent || f.sshAgent)
      ∧ (applyCore cfg f).ReadonlyProject = (cfg.ReadonlyProject || f.readonlyProject)
      ∧ (applyCore cfg f).NoNetwork = (cfg.NoNetwork || f.noNetwork)
      ∧ (applyCore cfg f).NoYolo = (cfg.NoYolo || f.noYolo)
      ∧ (applyCore cfg f).Scratch = (cfg.Scratch || f.scratch)
      ∧ (applyCore cfg f).ClaudeConfig = (cfg.ClaudeConfig || f.claudeConfig)
      ∧ (applyCore cfg f).GitConfig = (cfg.GitConfig || f.gitConfig)
      ∧ (applyCore cfg f).GhToken = (cfg.GhToken || f.ghToken)
      ∧ (applyCore cfg f).CopyAgentInstructions
          = (cfg.CopyAgentInstructions || f.copyAgentInstructions)) :=
  ⟨fun d s => ⟨rfl, rfl, rfl, rfl, rfl, rfl, rfl, rfl, rfl⟩,
   fun cfg f => ⟨rfl, rfl, rfl, rfl, rfl, rfl, rfl, rfl, rfl⟩⟩

/-! ### C7 -/

/-- Behaviour of `resolvePath` on `~` alone with an absolute home: the cleaned home,
independent of the base directory. -/
theorem resolvePath_tilde_bare {home : Str} (hab : isAbs home = true) (b : Str) :
    resolvePath (Except.ok home) ['~'] b = Except.ok (clean home) := by
  cases home with
  | nil => simp [isAbs] at hab
  | cons a t =>
    have ha : a = '/' := by simpa [isAbs] using hab
    subst ha
    simp [resolvePath, headIs, isAbs]

/-- Behaviour of `resolvePath` on `~/rest` with an absolute home: the cleaned join of
home and the remainder, independent of the base directory. -/
theorem resolvePath_tilde_slash {home : Str} (hab : isAbs home = true) (rest b : Str) :
    resolvePath (Except.ok home) ('~' :: '/' :: rest) b =
      Except.ok (clean (goJoin [home, rest])) := by
  obtain ⟨t, ht⟩ := goJoin_pair_rooted hab rest
  simp only [resolvePath, headIs]
  simp only [List.take_succ_cons, List.take_zero, List.drop_succ_cons, List.drop_zero]
  rw [ht]
  simp [headIs, isAbs]

/-- Behaviour of `resolvePath` on a `~`-prefixed path whose second character is not a
slash: the path passes through unchanged, for any home and base. -/
theorem resolvePath_tilde_other (hm : Except Str Str) {c : Char} (hc : c ≠ '/')
    (rest b : Str) (home : Str) (hh : hm = Except.ok home) :
    resolvePath hm ('~' :: c :: rest) b = Except.ok ('~' :: c :: rest) := by
  subst hh
  simp [resolvePath, headIs, hc]

/-- C7: counterexample.  The claim quantifies over every path beginning
with `~`, but `resolvePath` (main.go lines 1283-1293) expands only `~`
itself and `~/`-prefixed paths: a path such as `~abc` passes through
unchanged instead of becoming the home directory joined with the
remainder `abc`. -/
theorem c7_counterexample :
    resolvePath (Except.ok (str (r"/home/u"))) (str (r"~abc")) (str (r"/base"))
        = Except.ok (str (r"~abc"))
    ∧ str (r"~abc") ≠ goJoin [str (r"/home/u"), str (r"abc")] := by
  exact ⟨rfl, by decide⟩

/-- C7 (amended): with an absolute home directory, `resolvePath` on any
`~`-prefixed path never consults the base directory; `~` alone yields the
cleaned home and `~/rest` yields the cleaned join of home with the
remainder, but a `~`-prefixed path not followed by `/` (such as `~abc`)
passes through unchanged rather than being home-joined. -/
theorem c7_tilde_resolution {home : Str} (hab : isAbs home = true) :
    (∀ path b1 b2 : Str, headIs path '~' = true →
      resolvePath (Except.ok home) path b1 = resolvePath (Except.ok home) path b2)
    ∧ (∀ b : Str, resolvePath (Except.ok home) ['~'] b = Except.ok (clean home))
    ∧ (∀ (rest b : Str), resolvePath (Except.ok home) ('~' :: '/' :: rest) b =
        Except.ok (clean (goJoin [home, rest])))
    ∧ (∀ (c : Char) (rest b : Str), c ≠ '/' →
        resolvePath (Except.ok home) ('~' :: c :: rest) b = Except.ok ('~' :: c :: rest)) := by
  refine ⟨fun path b1 b2 h7 => ?_, resolvePath_tilde_bare hab,
          resolvePath_tilde_slash hab,
          fun c rest b hc => resolvePath_tilde_other _ hc rest b home rfl⟩
  cases path with
  | nil => simp [headIs] at h7
  | cons a rest =>
    have ha : a = '~' := by simpa [headIs] using h7
    subst ha
    cases rest with
    | nil => rw [resolvePath_tilde_bare hab, resolvePath_tilde_bare hab]
    | cons c rest2 =>
      by_cases hc : c = '/'
      · subst hc
        rw [resolvePath_tilde_slash hab, resolvePath_tilde_slash hab]
      · rw [resolvePath_tilde_other _ hc rest2 b1 home rfl,
            resolvePath_tilde_other _ hc rest2 b2 home rfl]

/-- C7: witness for the amended theorem at a concrete home, path and pair
of bases. -/
theorem c7_witness :
    resolvePath (Except.ok (str (r"/home/u"))) (str (r"~/x")) (str (r"/b1"))
      = resolvePath (Except.ok (str (r"/home/u"))) (str (r"~/x")) (str (r"/b2")) :=
  (c7_tilde_resolution (by decide)).1 (str (r"~/x")) (str (r"/b1")) (str (r"/b2")) (by decide)

/-! ### C8 -/

/-- C8: `resolveMount("./src:/app/src", "/project")` yields
`/project/src:/app/src`; a mount spec with no colon fails with the
invalid-mount-syntax error; and `resolvePath` of the empty string fails
with the empty-path error — each independently of the home-directory
lookup (and, for the failures, of the base directory). -/
theorem c8_resolve_examples :
    (∀ hm : Except Str Str,
      resolveMount hm (str (r"./src:/app/src")) (str (r"/project"))
        = Except.ok (str (r"/project/src:/app/src")))
    ∧ (∀ (hm : Except Str Str) (b : Str),
      resolveMount hm (str (r"no-colon")) b
        = Except.error (str (r"invalid mount; expected src:dst")))
    ∧ (∀ (hm : Except Str Str) (b : Str),
      resolvePath hm [] b = Except.error (str (r"empty path"))) :=
  ⟨fun hm => rfl, fun hm b => rfl, fun hm b => rfl⟩

/-! ### C9 -/

/-- C9: `resolveShell` with an explicit Config shell ignores the
environment hint entirely and returns the configured shell undetected;
with no Config shell, the hints `/usr/bin/fish/` (trailing slash) and
`/usr/bin//fish` (double slash) both detect `fish`. -/
theorem c9_resolve_shell :
    (∀ c e1 e2 : Str, c ≠ [] →
      resolveShell c e1 = resolveShell c e2
      ∧ resolveShell c e1 = ⟨c, false, []⟩)
    ∧ resolveShell [] (str (r"/usr/bin/fish/")) = ⟨str (r"fish"), true, []⟩
    ∧ resolveShell [] (str (r"/usr/bin//fish")) = ⟨str (r"fish"), true, []⟩ :=
  ⟨fun c e1 e2 h => by simp [resolveShell, h], rfl, rfl⟩

/-- C9: witness at a concrete configured shell and two different
environment hints. -/
theorem c9_witness :
    resolveShell (str (r"bash")) (str (r"/usr/bin/fish"))
      = resolveShell (str (r"bash")) (str (r"/bin/zsh"))
    ∧ resolveShell (str (r"bash")) (str (r"/usr/bin/fish"))
      = ⟨str (r"bash"), false, []⟩ :=
  c9_resolve_shell.1 (str (r"bash")) (str (r"/usr/bin/fish")) (str (r"/bin/zsh")) (by decide)

/-! ### Token bookkeeping for the buildRunArgs theorems -/

/-- The `--network` flag token. -/
def netTok : Str := str (r"--network")

/-- The persistent home volume argument. -/
def homeVolTok : Str := str (r"yolobox-home:/home/yolo")

/-- The persistent cache volume argument. -/
def cacheVolTok : Str := str (r"yolobox-cache:/var/cache")

/-- The fixed mount-destination suffixes a credential, instruction-file,
staging or ssh-socket mount token always carries. -/
def fixedMountSuffixes : List Str :=
  [str (r":/host-claude/.claude:ro"), str (r":/host-claude/.claude.json:ro"),
   str (r":/host-claude/.credentials.json:ro"), str (r":/host-git/.gitconfig:ro"),
   str (r":/host-agent-instructions/claude/CLAUDE.md:ro"),
   str (r":/host-agent-instructions/gemini/GEMINI.md:ro"),
   str (r":/host-agent-instructions/codex/AGENTS.md:ro"),
   str (r":/host-agent-instructions/copilot/agents:ro"),
   str (r":/host-files:ro"), str (r":/ssh-agent")]

theorem mem_baseSegment {x : Str} {env : Env} {i : Bool} (h : x ∈ baseSegment env i) :
    x = str (r"run") ∨ x = str (r"--rm") ∨ x = str (r"-it") := by
  unfold baseSegment at h
  split at h <;> simp at h <;> tauto

theorem mem_headerSegment {x : Str} {env : Env} {cfg : Config} {ap : Str}
    (h : x ∈ headerSegment env cfg ap) :
    x = str (r"-w") ∨ x = ap ∨ x = str (r"-e") ∨ x = str (r"YOLOBOX=1")
    ∨ x = str (r"YOLOBOX_PROJECT_PATH=") ++ ap ∨ x = str (r"NO_YOLO=1")
    ∨ (∃ v, x = str (r"TERM=") ++ v) ∨ (∃ v, x = str (r"LANG=") ++ v) := by
  unfold headerSegment at h
  simp only [List.mem_append] at h
  rcases h with ((h | h) | h) | h
  · simp at h
    tauto
  · split at h <;> simp at h <;> tauto
  · split at h
    · simp at h
      rcases h with h | h
      · tauto
      · exact Or.inr (Or.inr (Or.inr (Or.inr (Or.inr (Or.inr (Or.inl ⟨_, h⟩))))))
    · simp at h
  · split at h
    · simp at h
      rcases h with h | h
      · tauto
      · exact Or.inr (Or.inr (Or.inr (Or.inr (Or.inr (Or.inr (Or.inr ⟨_, h⟩))))))
    · simp at h

theorem mem_envForwardSegment {x : Str} {env : Env} (h : x ∈ envForwardSegment env) :
    x = str (r"-e") ∨ ∃ k v, k ∈ autoPassthroughEnvVars ∧ x = k ++ '=' :: v := by
  unfold envForwardSegment at h
  rw [List.mem_flatMap] at h
  obtain ⟨k, hk, hx⟩ := h
  split at hx
  · simp at hx
    rcases hx with hx | hx
    · exact Or.inl hx
    · exact Or.inr ⟨k, env.getenv k, hk, hx⟩
  · simp at hx

theorem mem_ghTokenSegment {x : Str} {env : Env} {cfg : Config}
    (h : x ∈ ghTokenSegment env cfg) :
    x = str (r"-e") ∨ ∃ v, x = str (r"GH_TOKEN=") ++ v := by
  unfold ghTokenSegment at h
  split at h <;> simp at h <;> tauto

theorem mem_userEnvSegment {x : Str} {cfg : Config} (h : x ∈ userEnvSegment cfg) :
    x = str (r"-e") ∨ x ∈ cfg.Env := by
  unfold userEnvSegment at h
  rw [List.mem_flatMap] at h
  obtain ⟨e, he, hx⟩ := h
  simp at hx
  rcases hx with hx | hx
  · exact Or.inl hx
  · exact Or.inr (hx ▸ he)

theorem mem_outputVolSegment {x : Str} {cfg : Config} (h : x ∈ outputVolSegment cfg) :
    x = str (r"-v") ∨ x = str (r"/output") ∨ x = str (r"yolobox-output:/output") := by
  unfold outputVolSegment at h
  split at h
  · split at h <;> simp at h <;> tauto
  · simp at h

theorem mem_projectMountSegment {x : Str} {cfg : Config} {ap : Str}
    (h : x ∈ projectMountSegment cfg ap) :
    x = str (r"-v") ∨ ∃ t, x = ap ++ t := by
  unfold projectMountSegment at h
  simp at h
  rcases h with h | h
  · exact Or.inl h
  · split at h
    · exact Or.inr ⟨[':'] ++ ap ++ str (r":ro"), by simp [h]⟩
    · exact Or.inr ⟨[':'] ++ ap, by simp [h]⟩

theorem mem_persistVolSegment {x : Str} {cfg : Config} (h : x ∈ persistVolSegment cfg) :
    x = str (r"-v") ∨ x = homeVolTok ∨ x = cacheVolTok := by
  unfold persistVolSegment at h
  split at h <;> simp at h <;> tauto

theorem mem_sshSegment {x : Str} {env : Env} {cfg : Config} {apple : Bool}
    (h : x ∈ sshSegment env cfg apple) :
    x = str (r"--ssh") ∨ x = str (r"-v") ∨ x = str (r"-e")
    ∨ x = str (r"SSH_AUTH_SOCK=/ssh-agent") ∨ ∃ v, x = v ++ str (r":/ssh-agent") := by
  unfold sshSegment at h
  split at h
  · split at h
    · simp at h
      tauto
    · split at h
      · simp at h
      · simp at h
        tauto
  · simp at h

/-- Shape of every token a credential, instruction-file or staging block
can emit: the `-v` flag or a path carrying one of the fixed mount-suffix
literals. -/
def GoodTok (x : Str) : Prop :=
  x = str (r"-v") ∨ ∃ s ∈ fixedMountSuffixes, s <:+ x

theorem goodTok_dashv : GoodTok (str (r"-v")) := Or.inl rfl

theorem goodTok_suffix (y sfx : Str) (hm : sfx ∈ fixedMountSuffixes) : GoodTok (y ++ sfx) :=
  Or.inr ⟨sfx, hm, y, rfl⟩

theorem goodTok_ne {x c : Str} (hg : GoodTok x) (h1 : c ≠ str (r"-v"))
    (h2 : ∀ s ∈ fixedMountSuffixes, ¬ s <:+ c) : x ≠ c := by
  rcases hg with rfl | ⟨s, hs, hsuf⟩
  · exact fun he => h1 he.symm
  · rintro rfl
    exact h2 s hs hsuf

theorem good_stepAppleChoice {p : List Str × List (Str × Str)}
    (hp : ∀ x ∈ p.1, GoodTok x) {tok : Str} (ht : GoodTok tok)
    (apple : Bool) (entry : Str × Str) :
    ∀ x ∈ (stepAppleChoice apple tok entry p).1, GoodTok x := by
  unfold stepAppleChoice
  split
  · exact hp
  · intro x hx
    simp only [List.mem_append, List.mem_cons, List.mem_singleton, List.not_mem_nil] at hx
    rcases hx with hx | hx | hx | hx
    · exact hp x hx
    · exact hx ▸ goodTok_dashv
    · exact hx ▸ ht
    · cases hx

theorem good_stepFileMount {p : List Str × List (Str × Str)}
    (hp : ∀ x ∈ p.1, GoodTok x) {tok : Str} (ht : GoodTok tok)
    (st : GoStat) (apple : Bool) (entry : Str × Str) :
    ∀ x ∈ (stepFileMount st apple tok entry p).1, GoodTok x := by
  unfold stepFileMount
  cases st with
  | ok d => exact good_stepAppleChoice hp ht apple entry
  | notFound => exact hp
  | err e => exact hp

theorem good_stepDirMount {p : List Str × List (Str × Str)}
    (hp : ∀ x ∈ p.1, GoodTok x) {tok : Str} (ht : GoodTok tok) (st : GoStat) :
    ∀ x ∈ (stepDirMount st tok p).1, GoodTok x := by
  unfold stepDirMount
  cases st with
  | ok d =>
    intro x hx
    simp only [List.mem_append, List.mem_cons, List.mem_singleton, List.not_mem_nil] at hx
    rcases hx with hx | hx | hx | hx
    · exact hp x hx
    · exact hx ▸ goodTok_dashv
    · exact hx ▸ ht
    · cases hx
  | notFound => exact hp
  | err e => exact hp

theorem good_stepDirMountIfDir {p : List Str × List (Str × Str)}
    (hp : ∀ x ∈ p.1, GoodTok x) {tok : Str} (ht : GoodTok tok) (st : GoStat) :
    ∀ x ∈ (stepDirMountIfDir st tok p).1, GoodTok x := by
  unfold stepDirMountIfDir
  cases st with
  | ok d =>
    cases d with
    | false => exact hp
    | true =>
      intro x hx
      simp only [List.mem_append, List.mem_cons, List.mem_singleton, List.not_mem_nil] at hx
      rcases hx with hx | hx | hx | hx
      · exact hp x hx
      · exact hx ▸ goodTok_dashv
      · exact hx ▸ ht
      · cases hx
  | notFound => exact hp
  | err e => exact hp

theorem good_claudeSegment {env : Env} {cfg : Config} {apple : Bool}
    {pr : List Str × List (Str × Str)}
    (hs : claudeSegment env cfg apple = Except.ok pr) :
    ∀ x ∈ pr.1, GoodTok x := by
  unfold claudeSegment at hs
  split at hs
  · cases hu : env.userHome with
    | error e => rw [hu] at hs; simp [Except.map] at hs
    | ok home =>
      rw [hu] at hs
      simp only [Except.map, Except.ok.injEq] at hs
      subst hs
      have g1 := good_stepDirMount (p := ([], [])) (by intro x hx; cases hx)
        (goodTok_suffix (goJoin [home, str (r".claude")])
          (str (r":/host-claude/.claude:ro")) (by simp [fixedMountSuffixes]))
        (env.stat (goJoin [home, str (r".claude")]))
      have g2 := good_stepFileMount g1
        (goodTok_suffix (goJoin [home, str (r".claude.json")])
          (str (r":/host-claude/.claude.json:ro")) (by simp [fixedMountSuffixes]))
        (env.stat (goJoin [home, str (r".claude.json")])) apple
        (goJoin [home, str (r".claude.json")], str (r"claude/.claude.json"))
      split
      · exact good_stepAppleChoice g2
          (goodTok_suffix (goJoin [goJoin [home, str (r".yolobox"), str (r"tmp")],
            str (r"claude-credentials.json")])
            (str (r":/host-claude/.credentials.json:ro")) (by simp [fixedMountSuffixes]))
          apple _
      · exact g2
  · simp only [Except.ok.injEq] at hs
    subst hs
    intro x hx
    cases hx

theorem good_gitSegment {env : Env} {cfg : Config} {apple : Bool}
    {pr : List Str × List (Str × Str)}
    (hs : gitSegment env cfg apple = Except.ok pr) :
    ∀ x ∈ pr.1, GoodTok x := by
  unfold gitSegment at hs
  split at hs
  · cases hu : env.userHome with
    | error e => rw [hu] at hs; simp [Except.map] at hs
    | ok home =>
      rw [hu] at hs
      simp only [Except.map, Except.ok.injEq] at hs
      subst hs
      exact good_stepFileMount (p := ([], [])) (by intro x hx; cases hx)
        (goodTok_suffix (goJoin [home, str (r".gitconfig")])
          (str (r":/host-git/.gitconfig:ro")) (by simp [fixedMountSuffixes]))
        (env.stat (goJoin [home, str (r".gitconfig")])) apple
        (goJoin [home, str (r".gitconfig")], str (r"git/.gitconfig"))
  · simp only [Except.ok.injEq] at hs
    subst hs
    intro x hx
    cases hx

theorem good_agentSegment {env : Env} {cfg : Config} {apple : Bool}
    {pr : List Str × List (Str × Str)}
    (hs : agentSegment env cfg apple = Except.ok pr) :
    ∀ x ∈ pr.1, GoodTok x := by
  unfold agentSegment at hs
  split at hs
  · cases hu : env.userHome with
    | error e => rw [hu] at hs; simp [Except.map] at hs
    | ok home =>
      rw [hu] at hs
      simp only [Except.map, Except.ok.injEq] at hs
      subst hs
      have g1 := good_stepFileMount (p := ([], [])) (by intro x hx; cases hx)
        (goodTok_suffix (goJoin [home, str (r".claude"), str (r"CLAUDE.md")])
          (str (r":/host-agent-instructions/claude/CLAUDE.md:ro")) (by simp [fixedMountSuffixes]))
        (env.stat (goJoin [home, str (r".claude"), str (r"CLAUDE.md")])) apple
        (goJoin [home, str (r".claude"), str (r"CLAUDE.md")],
          str (r"agent-instructions/claude/CLAUDE.md"))
      have g2 := good_stepFileMount g1
        (goodTok_suffix (goJoin [home, str (r".gemini"), str (r"GEMINI.md")])
          (str (r":/host-agent-instructions/gemini/GEMINI.md:ro")) (by simp [fixedMountSuffixes]))
        (env.stat (goJoin [home, str (r".gemini"), str (r"GEMINI.md")])) apple
        (goJoin [home, str (r".gemini"), str (r"GEMINI.md")],
          str (r"agent-instructions/gemini/GEMINI.md"))
      have g3 := good_stepFileMount g2
        (goodTok_suffix (goJoin [home, str (r".codex"), str (r"AGENTS.md")])
          (str (r":/host-agent-instructions/codex/AGENTS.md:ro")) (by simp [fixedMountSuffixes]))
        (env.stat (goJoin [home, str (r".codex"), str (r"AGENTS.md")])) apple
        (goJoin [home, str (r".codex"), str (r"AGENTS.md")],
          str (r"agent-instructions/codex/AGENTS.md"))
      exact good_stepDirMountIfDir g3
        (goodTok_suffix (goJoin [home, str (r".copilot"), str (r"agents")])
          (str (r":/host-agent-instructions/copilot/agents:ro")) (by simp [fixedMountSuffixes]))
        (env.stat (goJoin [home, str (r".copilot"), str (r"agents")]))
  · simp only [Except.ok.injEq] at hs
    subst hs
    intro x hx
    cases hx

theorem mem_appleFilesSegment {x : Str} {env : Env} {apple : Bool}
    {files : List (Str × Str)} {l : List Str}
    (hs : appleFilesSegment env apple files = Except.ok l) (h : x ∈ l) :
    x = str (r"-v") ∨ x = str (r"-e") ∨ x = str (r"YOLOBOX_HOST_FILES=/host-files")
    ∨ ∃ v, x = v ++ str (r":/host-files:ro") := by
  unfold appleFilesSegment at hs
  split at hs
  · cases hp : env.prepareRes with
    | error e => rw [hp] at hs; simp [Except.map] at hs
    | ok tmp =>
      rw [hp] at hs
      simp [Except.map] at hs
      subst hs
      simp at h
      tauto
  · simp at hs
    subst hs
    simp at h

theorem resolveMount_ok_colon {hm : Except Str Str} {m pd r : Str}
    (h : resolveMount hm m pd = Except.ok r) : ':' ∈ r := by
  unfold resolveMount at h
  dsimp only at h
  split at h
  · simp at h
  · split at h
    · simp at h
    · repeat' split at h
      all_goals simp only [Except.ok.injEq] at h
      all_goals subst h
      all_goals simp

theorem mem_mountsSegment {hm : Except Str Str} {ap : Str} {ms : List Str} {l : List Str}
    (hs : mountsSegment hm ap ms = Except.ok l) :
    ∀ x ∈ l, x = str (r"-v") ∨ ∃ m r, m ∈ ms ∧ resolveMount hm m ap = Except.ok r ∧ x = r := by
  induction ms generalizing l with
  | nil =>
    unfold mountsSegment at hs
    simp only [Except.ok.injEq] at hs
    subst hs
    intro x hx
    cases hx
  | cons m rest ih =>
    unfold mountsSegment at hs
    cases h1 : resolveMount hm m ap with
    | error e => rw [h1] at hs; simp at hs
    | ok r =>
      rw [h1] at hs
      cases h2 : mountsSegment hm ap rest with
      | error e => rw [h2] at hs; simp at hs
      | ok tl =>
        rw [h2] at hs
        simp only [Except.ok.injEq] at hs
        subst hs
        intro x hx
        simp only [List.cons_append, List.nil_append, List.mem_cons] at hx
        rcases hx with hx | hx | hx
        · exact Or.inl hx
        · exact Or.inr ⟨m, r, List.mem_cons_self m rest, h1, hx⟩
        · rcases ih h2 x hx with h | ⟨m2, r2, hm2, hr2, hx2⟩
          · exact Or.inl h
          · exact Or.inr ⟨m2, r2, List.mem_cons_of_mem m hm2, hr2, hx2⟩

theorem mountsSegment_err_of_head {hm : Except Str Str} {ap m e : Str} (rest : List Str)
    (h : resolveMount hm m ap = Except.error e) :
    mountsSegment hm ap (m :: rest) = Except.error e := by
  unfold mountsSegment
  rw [h]

theorem mountsSegment_isOk {hm : Except Str Str} {ap : Str} {ms : List Str}
    (h : ∀ m ∈ ms, (resolveMount hm m ap).isOk = true) :
    ∃ l, mountsSegment hm ap ms = Except.ok l := by
  induction ms with
  | nil => exact ⟨[], rfl⟩
  | cons m rest ih =>
    obtain ⟨l, hl⟩ := ih (fun x hx => h x (List.mem_cons_of_mem m hx))
    have hh := h m (List.mem_cons_self m rest)
    cases hr : resolveMount hm m ap with
    | error e => rw [hr] at hh; simp [Except.isOk, Except.toBool] at hh
    | ok r =>
      refine ⟨[str (r"-v"), r] ++ l, ?_⟩
      unfold mountsSegment
      rw [hr, hl]

theorem goAbs_of_abs {w : Except Str Str} {p : Str} (h : isAbs p = true) :
    goAbs w p = Except.ok (clean p) := by
  unfold goAbs
  rw [if_pos h]

theorem claudeSegment_ok_of_home (cfg : Config) (apple : Bool) {env : Env} {home : Str}
    (hu : env.userHome = Except.ok home) :
    ∃ pr, claudeSegment env cfg apple = Except.ok pr := by
  unfold claudeSegment
  split
  · rw [hu]
    exact ⟨_, rfl⟩
  · exact ⟨_, rfl⟩

theorem gitSegment_ok_of_home (cfg : Config) (apple : Bool) {env : Env} {home : Str}
    (hu : env.userHome = Except.ok home) :
    ∃ pr, gitSegment env cfg apple = Except.ok pr := by
  unfold gitSegment
  split
  · rw [hu]
    exact ⟨_, rfl⟩
  · exact ⟨_, rfl⟩

theorem agentSegment_ok_of_home (cfg : Config) (apple : Bool) {env : Env} {home : Str}
    (hu : env.userHome = Except.ok home) :
    ∃ pr, agentSegment env cfg apple = Except.ok pr := by
  unfold agentSegment
  split
  · rw [hu]
    exact ⟨_, rfl⟩
  · exact ⟨_, rfl⟩

theorem appleFilesSegment_ok (env : Env) (apple : Bool) (files : List (Str × Str))
    (hp : apple = true → (env.prepareRes).isOk = true) :
    ∃ l, appleFilesSegment env apple files = Except.ok l := by
  unfold appleFilesSegment
  split
  · rename_i hcond
    have ha : apple = true := (Bool.and_eq_true _ _ |>.mp hcond).1
    cases hr : env.prepareRes with
    | error e =>
      have hok := hp ha
      rw [hr] at hok
      simp [Except.isOk, Except.toBool] at hok
    | ok tmp => exact ⟨_, rfl⟩
  · exact ⟨_, rfl⟩

/-- Successful builds decompose into the segments in source order. -/
theorem buildRunArgs_ok_decomp {env : Env} {cfg : Config} {pd : Str} {cmd : List Str}
    {i : Bool} {args : List Str}
    (h : buildRunArgs env cfg pd cmd i = Except.ok args) :
    ∃ ap c g a s12 s13,
      goAbs env.getwd pd = Except.ok ap
      ∧ claudeSegment env cfg (isAppleContainer env cfg.Runtime) = Except.ok c
      ∧ gitSegment env cfg (isAppleContainer env cfg.Runtime) = Except.ok g
      ∧ agentSegment env cfg (isAppleContainer env cfg.Runtime) = Except.ok a
      ∧ appleFilesSegment env (isAppleContainer env cfg.Runtime) (c.2 ++ g.2 ++ a.2)
          = Except.ok s12
      ∧ mountsSegment env.userHome ap cfg.Mounts = Except.ok s13
      ∧ args = baseSegment env i ++ headerSegment env cfg ap ++ envForwardSegment env
          ++ ghTokenSegment env cfg ++ userEnvSegment cfg ++ outputVolSegment cfg
          ++ projectMountSegment cfg ap ++ persistVolSegment cfg
          ++ c.1 ++ g.1 ++ a.1 ++ s12 ++ s13
          ++ sshSegment env cfg (isAppleContainer env cfg.Runtime)
          ++ networkSegment cfg ++ [cfg.Image] ++ cmd := by
  unfold buildRunArgs at h
  cases hg : goAbs env.getwd pd with
  | error e => rw [hg] at h; simp at h
  | ok ap =>
    rw [hg] at h
    dsimp only at h
    cases hc : claudeSegment env cfg (isAppleContainer env cfg.Runtime) with
    | error e => rw [hc] at h; simp at h
    | ok c =>
      rw [hc] at h
      dsimp only at h
      cases hgi : gitSegment env cfg (isAppleContainer env cfg.Runtime) with
      | error e => rw [hgi] at h; simp at h
      | ok g =>
        rw [hgi] at h
        dsimp only at h
        cases ha : agentSegment env cfg (isAppleContainer env cfg.Runtime) with
        | error e => rw [ha] at h; simp at h
        | ok a =>
          rw [ha] at h
          dsimp only at h
          cases h12 : appleFilesSegment env (isAppleContainer env cfg.Runtime)
              (c.2 ++ g.2 ++ a.2) with
          | error e => rw [h12] at h; simp at h
          | ok s12 =>
            rw [h12] at h
            dsimp only at h
            cases h13 : mountsSegment env.userHome ap cfg.Mounts with
            | error e => rw [h13] at h; simp at h
            | ok s13 =>
              rw [h13] at h
              dsimp only at h
              simp only [Except.ok.injEq] at h
              exact ⟨ap, c, g, a, s12, s13, rfl, rfl, rfl, rfl, h12, h13, h.symm⟩

/-! ### Generic token disequalities across the builder segments -/

/-- The literal argument tokens the builder can emit outside the network
segment, the persistent volumes and the extra-mount results. -/
def fixedArgToks : List Str :=
  [str (r"run"), str (r"--rm"), str (r"-it"), str (r"-w"), str (r"-e"), str (r"-v"),
   str (r"YOLOBOX=1"), str (r"NO_YOLO=1"), str (r"/output"), str (r"yolobox-output:/output"),
   str (r"--ssh"), str (r"SSH_AUTH_SOCK=/ssh-agent"), str (r"YOLOBOX_HOST_FILES=/host-files")]

/-- The head characters of the builder's composite tokens (absolute paths,
`KEY=value` forwards). -/
def argHeadChars : List Char := ['/', 'Y', 'T', 'L', 'A', 'O', 'C', 'G']

theorem count_zero_of_forall_ne {l : List Str} {c : Str} (h : ∀ x ∈ l, x ≠ c) :
    l.count c = 0 :=
  List.count_eq_zero.mpr (fun hmem => (h c hmem) rfl)

theorem seg_ne_base (env : Env) (i : Bool) {c : Str} (h1 : c ∉ fixedArgToks) :
    ∀ x ∈ baseSegment env i, x ≠ c := by
  intro x hx
  rcases mem_baseSegment hx with rfl | rfl | rfl <;>
    (rintro rfl; exact h1 (by simp [fixedArgToks]))

theorem seg_ne_header (env : Env) (cfg : Config) (t : Str) {c : Str}
    (h1 : c ∉ fixedArgToks)
    (h2 : ∀ (a : Char) (xs : Str), a ∈ argHeadChars → c ≠ a :: xs) :
    ∀ x ∈ headerSegment env cfg ('/' :: t), x ≠ c := by
  intro x hx
  rcases mem_headerSegment hx with rfl | rfl | rfl | rfl | rfl | rfl | ⟨v, rfl⟩ | ⟨v, rfl⟩
  · rintro rfl; exact h1 (by simp [fixedArgToks])
  · exact fun he => h2 '/' t (by simp [argHeadChars]) he.symm
  · rintro rfl; exact h1 (by simp [fixedArgToks])
  · exact fun he => h2 'Y' _ (by simp [argHeadChars]) he.symm
  · exact fun he => h2 'Y' _ (by simp [argHeadChars]) he.symm
  · rintro rfl; exact h1 (by simp [fixedArgToks])
  · exact fun he => h2 'T' _ (by simp [argHeadChars]) he.symm
  · exact fun he => h2 'L' _ (by simp [argHeadChars]) he.symm

theorem seg_ne_envForward (env : Env) {c : Str}
    (h1 : c ∉ fixedArgToks)
    (h2 : ∀ (a : Char) (xs : Str), a ∈ argHeadChars → c ≠ a :: xs) :
    ∀ x ∈ envForwardSegment env, x ≠ c := by
  intro x hx
  rcases mem_envForwardSegment hx with rfl | ⟨k, v, hk, rfl⟩
  · rintro rfl; exact h1 (by simp [fixedArgToks])
  · simp only [autoPassthroughEnvVars, List.mem_cons, List.not_mem_nil, or_false] at hk
    rcases hk with rfl | rfl | rfl | rfl | rfl | rfl | rfl
    · exact fun he => h2 'A' _ (by simp [argHeadChars]) he.symm
    · exact fun he => h2 'O' _ (by simp [argHeadChars]) he.symm
    · exact fun he => h2 'C' _ (by simp [argHeadChars]) he.symm
    · exact fun he => h2 'G' _ (by simp [argHeadChars]) he.symm
    · exact fun he => h2 'G' _ (by simp [argHeadChars]) he.symm
    · exact fun he => h2 'O' _ (by simp [argHeadChars]) he.symm
    · exact fun he => h2 'G' _ (by simp [argHeadChars]) he.symm

theorem seg_ne_ghToken (env : Env) (cfg : Config) {c : Str}
    (h1 : c ∉ fixedArgToks)
    (h2 : ∀ (a : Char) (xs : Str), a ∈ argHeadChars → c ≠ a :: xs) :
    ∀ x ∈ ghTokenSegment env cfg, x ≠ c := by
  intro x hx
  rcases mem_ghTokenSegment hx with rfl | ⟨v, rfl⟩
  · rintro rfl; exact h1 (by simp [fixedArgToks])
  · exact fun he => h2 'G' _ (by simp [argHeadChars]) he.symm

theorem seg_ne_userEnv (cfg : Config) {c : Str}
    (h1 : c ∉ fixedArgToks) (h4 : c ∉ cfg.Env) :
    ∀ x ∈ userEnvSegment cfg, x ≠ c := by
  intro x hx
  rcases mem_userEnvSegment hx with rfl | hmem
  · rintro rfl; exact h1 (by simp [fixedArgToks])
  · rintro rfl; exact h4 hmem

theorem seg_ne_outputVol (cfg : Config) {c : Str} (h1 : c ∉ fixedArgToks) :
    ∀ x ∈ outputVolSegment cfg, x ≠ c := by
  intro x hx
  rcases mem_outputVolSegment hx with rfl | rfl | rfl <;>
    (rintro rfl; exact h1 (by simp [fixedArgToks]))

theorem seg_ne_projectMount (cfg : Config) (t : Str) {c : Str}
    (h1 : c ∉ fixedArgToks)
    (h2 : ∀ (a : Char) (xs : Str), a ∈ argHeadChars → c ≠ a :: xs) :
    ∀ x ∈ projectMountSegment cfg ('/' :: t), x ≠ c := by
  intro x hx
  rcases mem_projectMountSegment hx with rfl | ⟨t2, rfl⟩
  · rintro rfl; exact h1 (by simp [fixedArgToks])
  · exact fun he => h2 '/' (t ++ t2) (by simp [argHeadChars]) (by simpa using he.symm)

theorem seg_ne_good {l : List Str} {c : Str}
    (hg : ∀ x ∈ l, GoodTok x)
    (h1 : c ∉ fixedArgToks)
    (h3 : ∀ s ∈ fixedMountSuffixes, ¬ s <:+ c) :
    ∀ x ∈ l, x ≠ c := by
  intro x hx
  exact goodTok_ne (hg x hx) (fun he => h1 (he ▸ by simp [fixedArgToks])) h3

theorem seg_ne_appleFiles {env : Env} {apple : Bool} {files : List (Str × Str)}
    {l : List Str} {c : Str}
    (hs : appleFilesSegment env apple files = Except.ok l)
    (h1 : c ∉ fixedArgToks)
    (h3 : ∀ s ∈ fixedMountSuffixes, ¬ s <:+ c) :
    ∀ x ∈ l, x ≠ c := by
  intro x hx
  rcases mem_appleFilesSegment hs hx with rfl | rfl | rfl | ⟨v, rfl⟩
  · rintro rfl; exact h1 (by simp [fixedArgToks])
  · rintro rfl; exact h1 (by simp [fixedArgToks])
  · rintro rfl; exact h1 (by simp [fixedArgToks])
  · exact fun he => h3 (str (r":/host-files:ro")) (by simp [fixedMountSuffixes]) ⟨v, he⟩

theorem seg_ne_ssh (env : Env) (cfg : Config) (apple : Bool) {c : Str}
    (h1 : c ∉ fixedArgToks)
    (h3 : ∀ s ∈ fixedMountSuffixes, ¬ s <:+ c) :
    ∀ x ∈ sshSegment env cfg apple, x ≠ c := by
  intro x hx
  rcases mem_sshSegment hx with rfl | rfl | rfl | rfl | ⟨v, rfl⟩
  · rintro rfl; exact h1 (by simp [fixedArgToks])
  · rintro rfl; exact h1 (by simp [fixedArgToks])
  · rintro rfl; exact h1 (by simp [fixedArgToks])
  · rintro rfl; exact h1 (by simp [fixedArgToks])
  · exact fun he => h3 (str (r":/ssh-agent")) (by simp [fixedMountSuffixes]) ⟨v, he⟩

/-! ### C3 -/

/-- C3: the built argument list carries exactly one of `--network none`
(when NoNetwork is set) or `--network name` (when a network is named), and
no `--network` token at all when neither is set — provided the
user-controlled strings do not themselves inject the literal `--network`
token; and a configuration with both a named network and NoNetwork is
rejected with an error during flag parsing, so it never reaches the
builder. -/
theorem c3_network_exclusive :
    (∀ (env : Env) (cfg : Config) (pd : Str) (cmd : List Str) (i : Bool),
      isAbs pd = true →
      netTok ∉ cfg.Env → netTok ∉ cmd → cfg.Image ≠ netTok → cfg.Network ≠ netTok →
      (buildRunArgs env cfg pd cmd i).isOk = true →
      ((cfg.NoNetwork = true →
          [netTok, str (r"none")] <:+: okArgs (buildRunArgs env cfg pd cmd i)
          ∧ (okArgs (buildRunArgs env cfg pd cmd i)).count netTok = 1)
       ∧ (cfg.NoNetwork = false → cfg.Network ≠ [] →
          [netTok, cfg.Network] <:+: okArgs (buildRunArgs env cfg pd cmd i)
          ∧ (okArgs (buildRunArgs env cfg pd cmd i)).count netTok = 1)
       ∧ (cfg.NoNetwork = false → cfg.Network = [] →
          (okArgs (buildRunArgs env cfg pd cmd i)).count netTok = 0)))
    ∧ (∀ (cfg : Config) (f : Flags),
        (applyCore cfg f).Network ≠ [] → (applyCore cfg f).NoNetwork = true →
        applyFlags cfg f = Except.error (str (r"cannot use --network with --no-network")))
    ∧ (∀ (cfg : Config) (f : Flags) (c : Config),
        applyFlags cfg f = Except.ok c → c.Network = [] ∨ c.NoNetwork = false) := by
  refine ⟨?_, ?_, ?_⟩
  · intro env cfg pd cmd i hpd henv hcmd himg hnetc hok
    cases hb : buildRunArgs env cfg pd cmd i with
    | error e => rw [hb] at hok; simp [Except.isOk, Except.toBool] at hok
    | ok args =>
      obtain ⟨ap, c, g, a, s12, s13, hg, hc, hgi, ha, h12, h13, hargs⟩ :=
        buildRunArgs_ok_decomp hb
      rw [goAbs_of_abs hpd] at hg
      have hapc : clean pd = ap := by
        simpa using hg
      subst hapc
      obtain ⟨t, ht⟩ := clean_rooted hpd
      rw [ht] at hargs
      have h1 : netTok ∉ fixedArgToks := by decide
      have h2 : ∀ (a2 : Char) (xs : Str), a2 ∈ argHeadChars → netTok ≠ a2 :: xs := by
        intro a2 xs ha2 he
        injection he with hh _
        subst hh
        exact absurd ha2 (by decide)
      have h3 : ∀ s ∈ fixedMountSuffixes, ¬ s <:+ netTok := by decide
      have z1 := count_zero_of_forall_ne (seg_ne_base env i h1)
      have z2 := count_zero_of_forall_ne (seg_ne_header env cfg t h1 h2)
      have z3 := count_zero_of_forall_ne (seg_ne_envForward env h1 h2)
      have z4 := count_zero_of_forall_ne (seg_ne_ghToken env cfg h1 h2)
      have z5 := count_zero_of_forall_ne (seg_ne_userEnv cfg h1 henv)
      have z6 := count_zero_of_forall_ne (seg_ne_outputVol cfg h1)
      have z7 := count_zero_of_forall_ne (seg_ne_projectMount cfg t h1 h2)
      have z8 : (persistVolSegment cfg).count netTok = 0 := by
        apply count_zero_of_forall_ne
        intro x hx
        rcases mem_persistVolSegment hx with rfl | rfl | rfl <;> decide
      have z9 := count_zero_of_forall_ne (seg_ne_good (good_claudeSegment hc) h1 h3)
      have z10 := count_zero_of_forall_ne (seg_ne_good (good_gitSegment hgi) h1 h3)
      have z11 := count_zero_of_forall_ne (seg_ne_good (good_agentSegment ha) h1 h3)
      have z12 := count_zero_of_forall_ne (seg_ne_appleFiles h12 h1 h3)
      have z13 : s13.count netTok = 0 := by
        apply count_zero_of_forall_ne
        intro x hx
        rcases mem_mountsSegment h13 x hx with rfl | ⟨m, rr, hm2, hro, rfl⟩
        · decide
        · exact ne_of_mem_not_mem (resolveMount_ok_colon hro) (by decide)
      have z14 := count_zero_of_forall_ne
        (seg_ne_ssh env cfg (isAppleContainer env cfg.Runtime) h1 h3)
      have z15 : List.count netTok [cfg.Image] = 0 := by
        apply count_zero_of_forall_ne
        intro x hx
        rw [List.mem_singleton] at hx
        subst hx
        exact himg
      have z16 : cmd.count netTok = 0 :=
        count_zero_of_forall_ne (fun x hx he => hcmd (he ▸ hx))
      simp only [okArgs]
      refine ⟨fun hno => ?_, fun hno hname => ?_, fun hno hname => ?_⟩
      · constructor
        · rw [hargs]
          refine ⟨baseSegment env i ++ headerSegment env cfg ('/' :: t) ++ envForwardSegment env
            ++ ghTokenSegment env cfg ++ userEnvSegment cfg ++ outputVolSegment cfg
            ++ projectMountSegment cfg ('/' :: t) ++ persistVolSegment cfg
            ++ c.1 ++ g.1 ++ a.1 ++ s12 ++ s13
            ++ sshSegment env cfg (isAppleContainer env cfg.Runtime), [cfg.Image] ++ cmd, ?_⟩
          simp [networkSegment, netTok, hno, List.append_assoc]
        · rw [hargs]
          simp only [List.count_append, z1, z2, z3, z4, z5, z6, z7, z8, z9, z10, z11, z12,
            z13, z14, z15, z16, networkSegment, hno, if_true]
          decide
      · constructor
        · rw [hargs]
          refine ⟨baseSegment env i ++ headerSegment env cfg ('/' :: t) ++ envForwardSegment env
            ++ ghTokenSegment env cfg ++ userEnvSegment cfg ++ outputVolSegment cfg
            ++ projectMountSegment cfg ('/' :: t) ++ persistVolSegment cfg
            ++ c.1 ++ g.1 ++ a.1 ++ s12 ++ s13
            ++ sshSegment env cfg (isAppleContainer env cfg.Runtime), [cfg.Image] ++ cmd, ?_⟩
          simp [networkSegment, netTok, hno, hname, List.append_assoc]
        · rw [hargs]
          simp only [List.count_append, z1, z2, z3, z4, z5, z6, z7, z8, z9, z10, z11, z12,
            z13, z14, z15, z16, networkSegment, hno, hname]
          simp [List.count_cons, hname, netTok]
          exact hnetc
      · rw [hargs]
        simp only [List.count_append, z1, z2, z3, z4, z5, z6, z7, z8, z9, z10, z11, z12,
          z13, z14, z15, z16, networkSegment, hno, hname, if_false, ite_false]
        simp
  · intro cfg f hn hnn
    unfold applyFlags
    dsimp only
    rw [if_pos ⟨hn, hnn⟩]
  · intro cfg f c h
    unfold applyFlags at h
    by_cases hv : (applyCore cfg f).Network ≠ [] ∧ (applyCore cfg f).NoNetwork = true
    · simp [hv] at h
    · simp only [hv, if_neg, if_false, Except.ok.injEq] at h
      subst h
      rcases not_and_or.mp hv with h | h
      · exact Or.inl (not_not.mp h)
      · exact Or.inr (by revert h; cases (applyCore cfg f).NoNetwork <;> simp)

/-- C3: witness for the builder characterisation and the flag-parsing
rejection at concrete inputs. -/
theorem c3_witness :
    (okArgs (buildRunArgs {} { Image := str (r"img"), NoNetwork := true }
        (str (r"/p")) [str (r"sh")] false)).count netTok = 1
    ∧ applyFlags { Network := str (r"mynet") } { noNetwork := true } =
        Except.error (str (r"cannot use --network with --no-network")) :=
  ⟨((c3_network_exclusive.1 {} { Image := str (r"img"), NoNetwork := true }
      (str (r"/p")) [str (r"sh")] false (by decide) (by decide) (by decide)
      (by decide) (by decide) (by rfl)).1 rfl).2,
   c3_network_exclusive.2.1 { Network := str (r"mynet") } { noNetwork := true }
     (by decide) rfl⟩

/-! ### C4 -/

theorem claudeSegment_err {env : Env} {cfg : Config} {apple : Bool} {e : Str}
    (hcc : cfg.ClaudeConfig = true) (hu : env.userHome = Except.error e) :
    claudeSegment env cfg apple = Except.error e := by
  unfold claudeSegment
  rw [if_pos hcc, hu]
  rfl

theorem claudeSegment_off {env : Env} {cfg : Config} {apple : Bool}
    (h : cfg.ClaudeConfig = false) : claudeSegment env cfg apple = Except.ok ([], []) := by
  unfold claudeSegment
  rw [if_neg (by simp [h])]

theorem gitSegment_off {env : Env} {cfg : Config} {apple : Bool}
    (h : cfg.GitConfig = false) : gitSegment env cfg apple = Except.ok ([], []) := by
  unfold gitSegment
  rw [if_neg (by simp [h])]

theorem agentSegment_off {env : Env} {cfg : Config} {apple : Bool}
    (h : cfg.CopyAgentInstructions = false) :
    agentSegment env cfg apple = Except.ok ([], []) := by
  unfold agentSegment
  rw [if_neg (by simp [h])]

theorem appleFilesSegment_nil {env : Env} {apple : Bool} :
    appleFilesSegment env apple [] = Except.ok [] := by
  unfold appleFilesSegment
  simp

/-- C4: counterexample.  The claim says any stat error other than
not-found (for example a permission error on a host credential file)
aborts the whole build with the originating error.  In the code every
credential-file stat is checked only as `err == nil` (main.go lines 1125,
1129, 1159, 1177, 1186, 1195, 1204), so a permission error merely skips
that mount: with every stat returning a permission error and all three
credential toggles on, the build still succeeds. -/
theorem c4_counterexample :
    (buildRunArgs { stat := fun _ => GoStat.err (str (r"permission denied")) }
        { Image := str (r"img"), ClaudeConfig := true, GitConfig := true,
          CopyAgentInstructions := true }
        (str (r"/proj")) [str (r"echo")] false).isOk = true := by rfl

/-- C4 (amended): an inability to determine the home directory (with a
credential toggle on) aborts the build with the originating error, and so
does a mount path-resolution failure; but a stat error of any kind never
aborts — with the home directory, staging directory and extra mounts all
resolvable, the build succeeds whatever the stat oracle returns,
permission errors included (the affected mount is merely skipped). -/
theorem c4_abort_behavior :
    (∀ (env : Env) (cfg : Config) (pd : Str) (cmd : List Str) (i : Bool) (e : Str),
      isAbs pd = true → cfg.ClaudeConfig = true → env.userHome = Except.error e →
      buildRunArgs env cfg pd cmd i = Except.error e)
    ∧ (∀ (env : Env) (cfg : Config) (pd : Str) (cmd : List Str) (i : Bool) (e : Str),
      isAbs pd = true → cfg.ClaudeConfig = false → cfg.GitConfig = false →
      cfg.CopyAgentInstructions = false →
      mountsSegment env.userHome (clean pd) cfg.Mounts = Except.error e →
      buildRunArgs env cfg pd cmd i = Except.error e)
    ∧ (∀ (env : Env) (cfg : Config) (pd : Str) (cmd : List Str) (i : Bool) (home : Str),
      isAbs pd = true → env.userHome = Except.ok home →
      (isAppleContainer env cfg.Runtime = true → (env.prepareRes).isOk = true) →
      (∀ m ∈ cfg.Mounts, (resolveMount env.userHome m (clean pd)).isOk = true) →
      (buildRunArgs env cfg pd cmd i).isOk = true) := by
  refine ⟨?_, ?_, ?_⟩
  · intro env cfg pd cmd i e hpd hcc hu
    unfold buildRunArgs
    rw [goAbs_of_abs hpd]
    dsimp only
    rw [claudeSegment_err hcc hu]
  · intro env cfg pd cmd i e hpd hcc hgc hai hm
    unfold buildRunArgs
    rw [goAbs_of_abs hpd]
    dsimp only
    rw [claudeSegment_off hcc]
    dsimp only
    rw [gitSegment_off hgc]
    dsimp only
    rw [agentSegment_off hai]
    dsimp only [List.nil_append]
    rw [appleFilesSegment_nil]
    dsimp only
    rw [hm]
  · intro env cfg pd cmd i home hpd hu hp hms
    obtain ⟨cpr, hcs⟩ := claudeSegment_ok_of_home cfg
      (isAppleContainer env cfg.Runtime) hu
    obtain ⟨gpr, hgs⟩ := gitSegment_ok_of_home cfg
      (isAppleContainer env cfg.Runtime) hu
    obtain ⟨apr, has⟩ := agentSegment_ok_of_home cfg
      (isAppleContainer env cfg.Runtime) hu
    obtain ⟨l12, h12⟩ := appleFilesSegment_ok env
      (isAppleContainer env cfg.Runtime)
      (cpr.2 ++ gpr.2 ++ apr.2) hp
    obtain ⟨l13, h13⟩ := mountsSegment_isOk hms
    unfold buildRunArgs
    rw [goAbs_of_abs hpd]
    dsimp only
    rw [hcs]
    dsimp only
    rw [hgs]
    dsimp only
    rw [has]
    dsimp only
    rw [h12]
    dsimp only
    rw [h13]
    rfl

/-- C4: witness — a home-directory failure aborts with that error at a
concrete input, and a concrete build with an everywhere-failing stat
oracle succeeds. -/
theorem c4_witness :
    buildRunArgs { userHome := Except.error (str (r"no home dir")) }
        { Image := str (r"img"), ClaudeConfig := true } (str (r"/p")) [] false =
      Except.error (str (r"no home dir"))
    ∧ (buildRunArgs { stat := fun _ => GoStat.err (str (r"eacces")) }
        { Image := str (r"img"), ClaudeConfig := true } (str (r"/p")) [] false).isOk = true :=
  ⟨c4_abort_behavior.1 { userHome := Except.error (str (r"no home dir")) }
     { Image := str (r"img"), ClaudeConfig := true } (str (r"/p")) [] false
     (str (r"no home dir")) (by decide) rfl rfl,
   c4_abort_behavior.2.2 { stat := fun _ => GoStat.err (str (r"eacces")) }
     { Image := str (r"img"), ClaudeConfig := true } (str (r"/p")) [] false
     (str (r"/home/u")) (by decide) rfl (fun h => by rfl) (by intro m hm; cases hm)⟩

/-! ### C5 -/

/-- C5: counterexample.  The claim says that for every Config with Scratch
true both persistent named volumes are absent from the produced arguments.
A Config whose extra mount list itself names `yolobox-home:/home/yolo` has
that spec passed through `resolveMount` verbatim (a bare volume name is
not path-resolved) and emitted, so the named volume is present despite
Scratch. -/
theorem c5_counterexample :
    buildRunArgs {} { Image := str (r"img"), Scratch := true,
                      Mounts := [str (r"yolobox-home:/home/yolo")] } (str (r"/p"))
        [str (r"sh")] false =
      Except.ok
        [str (r"run"), str (r"--rm"),
         str (r"-w"), str (r"/p"),
         str (r"-e"), str (r"YOLOBOX=1"),
         str (r"-e"), str (r"YOLOBOX_PROJECT_PATH=/p"),
         str (r"-v"), str (r"/p:/p"),
         str (r"-v"), str (r"yolobox-home:/home/yolo"),
         str (r"img"), str (r"sh")]
    ∧ str (r"yolobox-home:/home/yolo") ∈
        okArgs (buildRunArgs {} { Image := str (r"img"), Scratch := true,
                                  Mounts := [str (r"yolobox-home:/home/yolo")] }
          (str (r"/p")) [str (r"sh")] false) := by
  exact ⟨rfl, by decide⟩

/-- C5 (amended): for configurations whose user-supplied mounts, env
entries, image, command and network name do not themselves spell the two
persistent volume strings, a Scratch-false build emits
`yolobox-home:/home/yolo` and `yolobox-cache:/var/cache` each exactly
once, a Scratch-true build emits neither, and the project mount at the
(cleaned) absolute host path — `:ro`-suffixed in read-only mode — is
present in every successful build. -/
theorem c5_volumes :
    ∀ (env : Env) (cfg : Config) (pd : Str) (cmd : List Str) (i : Bool),
      isAbs pd = true →
      homeVolTok ∉ cfg.Env → cacheVolTok ∉ cfg.Env →
      homeVolTok ∉ cmd → cacheVolTok ∉ cmd →
      cfg.Image ≠ homeVolTok → cfg.Image ≠ cacheVolTok →
      cfg.Network ≠ homeVolTok → cfg.Network ≠ cacheVolTok →
      (∀ m r, m ∈ cfg.Mounts → resolveMount env.userHome m (clean pd) = Except.ok r →
        r ≠ homeVolTok ∧ r ≠ cacheVolTok) →
      (buildRunArgs env cfg pd cmd i).isOk = true →
      ((cfg.Scratch = false →
          (okArgs (buildRunArgs env cfg pd cmd i)).count homeVolTok = 1
          ∧ (okArgs (buildRunArgs env cfg pd cmd i)).count cacheVolTok = 1)
       ∧ (cfg.Scratch = true →
          (okArgs (buildRunArgs env cfg pd cmd i)).count homeVolTok = 0
          ∧ (okArgs (buildRunArgs env cfg pd cmd i)).count cacheVolTok = 0)
       ∧ (if cfg.ReadonlyProject then clean pd ++ [':'] ++ clean pd ++ str (r":ro")
          else clean pd ++ [':'] ++ clean pd) ∈ okArgs (buildRunArgs env cfg pd cmd i)) := by
  intro env cfg pd cmd i hpd he1 he2 hc1 hc2 hi1 hi2 hn1 hn2 hmnt hok
  cases hb : buildRunArgs env cfg pd cmd i with
  | error e => rw [hb] at hok; simp [Except.isOk, Except.toBool] at hok
  | ok args =>
    obtain ⟨ap, c, g, a, s12, s13, hg, hc, hgi, ha, h12, h13, hargs⟩ :=
      buildRunArgs_ok_decomp hb
    rw [goAbs_of_abs hpd] at hg
    have hapc : clean pd = ap := by simpa using hg
    subst hapc
    obtain ⟨t, ht⟩ := clean_rooted hpd
    rw [ht] at hargs
    have hv2 : ∀ (v : Str), v ∈ [homeVolTok, cacheVolTok] →
        ∀ (a2 : Char) (xs : Str), a2 ∈ argHeadChars → v ≠ a2 :: xs := by
      intro v hv a2 xs ha2 he
      rcases (by simpa using hv : v = homeVolTok ∨ v = cacheVolTok) with rfl | rfl <;>
        (injection he with hh _; subst hh; exact absurd ha2 (by decide))
    have zeros : ∀ (v : Str), v ∈ [homeVolTok, cacheVolTok] → v ∉ cfg.Env → v ∉ cmd →
        cfg.Image ≠ v → cfg.Network ≠ v →
        (∀ m r, m ∈ cfg.Mounts → resolveMount env.userHome m (clean pd) = Except.ok r →
          r ≠ v) →
        args.count v = (persistVolSegment cfg).count v := by
      intro v hv hve hvc hvi hvn hvm
      have h1 : v ∉ fixedArgToks := by
        rcases (by simpa using hv : v = homeVolTok ∨ v = cacheVolTok) with rfl | rfl <;> decide
      have h2 := hv2 v hv
      have h3 : ∀ s ∈ fixedMountSuffixes, ¬ s <:+ v := by
        rcases (by simpa using hv : v = homeVolTok ∨ v = cacheVolTok) with rfl | rfl <;> decide
      have z1 := count_zero_of_forall_ne (seg_ne_base env i h1)
      have z2 := count_zero_of_forall_ne
        (seg_ne_header env cfg t h1 h2)
      have z3 := count_zero_of_forall_ne (seg_ne_envForward env h1 h2)
      have z4 := count_zero_of_forall_ne (seg_ne_ghToken env cfg h1 h2)
      have z5 := count_zero_of_forall_ne (seg_ne_userEnv cfg h1 hve)
      have z6 := count_zero_of_forall_ne (seg_ne_outputVol cfg h1)
      have z7 := count_zero_of_forall_ne
        (seg_ne_projectMount cfg t h1 h2)
      have z9 := count_zero_of_forall_ne (seg_ne_good (good_claudeSegment hc) h1 h3)
      have z10 := count_zero_of_forall_ne (seg_ne_good (good_gitSegment hgi) h1 h3)
      have z11 := count_zero_of_forall_ne (seg_ne_good (good_agentSegment ha) h1 h3)
      have z12 := count_zero_of_forall_ne (seg_ne_appleFiles h12 h1 h3)
      have z13 : s13.count v = 0 := by
        apply count_zero_of_forall_ne
        intro x hx
        rcases mem_mountsSegment h13 x hx with rfl | ⟨m, rr, hm2, hro, rfl⟩
        · rintro rfl; exact h1 (by simp [fixedArgToks])
        · exact hvm m _ hm2 hro
      have z14 := count_zero_of_forall_ne
        (seg_ne_ssh env cfg (isAppleContainer env cfg.Runtime) h1 h3)
      have z15 : List.count v [cfg.Image] = 0 := by
        apply count_zero_of_forall_ne
        intro x hx
        rw [List.mem_singleton] at hx
        subst hx
        exact hvi
      have z16 : cmd.count v = 0 :=
        count_zero_of_forall_ne (fun x hx he => hvc (he ▸ hx))
      have znet : (networkSegment cfg).count v = 0 := by
        apply count_zero_of_forall_ne
        intro x hx
        unfold networkSegment at hx
        split at hx
        · rcases (by simpa using hx : x = netTok ∨ x = str (r"none")) with rfl | rfl
          · rcases (by simpa using hv : v = homeVolTok ∨ v = cacheVolTok) with rfl | rfl <;>
              decide
          · rcases (by simpa using hv : v = homeVolTok ∨ v = cacheVolTok) with rfl | rfl <;>
              decide
        · split at hx
          · rcases (by simpa using hx : x = netTok ∨ x = cfg.Network) with rfl | rfl
            · rcases (by simpa using hv : v = homeVolTok ∨ v = cacheVolTok) with rfl | rfl <;>
                decide
            · exact hvn
          · simp at hx
      rw [hargs]
      simp only [List.count_append, z1, z2, z3, z4, z5, z6, z7, z9, z10, z11, z12, z13,
        z14, z15, z16, znet]
      omega
    have zh := zeros homeVolTok (by simp) he1 hc1 hi1 hn1
      (fun m r hm2 hro => (hmnt m r hm2 hro).1)
    have zc := zeros cacheVolTok (by simp) he2 hc2 hi2 hn2
      (fun m r hm2 hro => (hmnt m r hm2 hro).2)
    simp only [okArgs]
    refine ⟨fun hscr => ?_, fun hscr => ?_, ?_⟩
    · rw [zh, zc]
      unfold persistVolSegment
      rw [hscr]
      constructor <;> decide
    · rw [zh, zc]
      unfold persistVolSegment
      rw [hscr]
      constructor <;> decide
    · rw [ht, hargs]
      have hseg : (if cfg.ReadonlyProject then '/' :: t ++ [':'] ++ ('/' :: t) ++ str (r":ro")
          else '/' :: t ++ [':'] ++ ('/' :: t)) ∈ projectMountSegment cfg ('/' :: t) := by
        unfold projectMountSegment
        split <;> simp
      simp only [List.mem_append]
      tauto

/-- C5: witness — a concrete non-scratch build carries each persistent
volume exactly once. -/
theorem c5_witness :
    (okArgs (buildRunArgs {} { Image := str (r"img") } (str (r"/p"))
        [str (r"sh")] false)).count homeVolTok = 1
    ∧ (okArgs (buildRunArgs {} { Image := str (r"img") } (str (r"/p"))
        [str (r"sh")] false)).count cacheVolTok = 1 :=
  (c5_volumes {} { Image := str (r"img") } (str (r"/p")) [str (r"sh")] false (by decide)
    (by decide) (by decide) (by decide) (by decide) (by decide) (by decide) (by decide)
    (by decide) (by intro m r hm; cases hm) (by rfl)).1 rfl

end Yolobox
